import Mathlib

/-!
Shallow embedding of the Whisper anonymous-gossip application's replicated
data layer: the IndexedDB-backed `DatabaseService` (posts, comments, votes,
notifications; vote-toggle algorithm; notification generation; expiry sweep;
per-user purge), the `P2PService` inbound ingestion callbacks, and the
`CryptoService` encrypt/decrypt envelope plumbing.

Modelling conventions:
  - JS strings are Lean `String` (or `List Char` where character-level
    operations such as base64 and `split('.')` matter).
  - JS numbers holding timestamps/counters are `Int`.
  - Each IndexedDB table is a `List` of records; `store.add` fails when the
    primary key (or, for votes, the `unique_vote` compound index) collides,
    modelled by an `Option` result; `store.put` replaces by primary key or
    inserts; `store.delete` removes by primary key.
  - Nondeterministic inputs (`crypto.randomUUID()`, `Date.now()`, random IVs
    and keys) are explicit parameters.
  - External platform primitives (WebCrypto sign/verify/AES-GCM, TextEncoder)
    are function parameters; `CryptoService.verifySignature` catches every
    internal error and returns `false`, so it is modelled as a total `Bool`
    function.
  - A thrown-and-caught JS exception mid-operation leaves the writes already
    performed in place (each IndexedDB request is its own transaction); the
    model threads the partial state accordingly.
-/

/-- `targetType` field: `'post' | 'comment'`. -/
inductive TType where
  | post
  | comment
deriving DecidableEq

/-- Notification `action` field: `'reply' | 'upvote'`. -/
inductive NAction where
  | reply
  | upvote
deriving DecidableEq

/-- `Post` record (database-service.ts). -/
structure Post where
  id : String
  authorPublicKey : String
  content : String
  timestamp : Int
  upvotes : Int
  downvotes : Int
  commentCount : Int
  signature : String
deriving DecidableEq

/-- `Comment` record (database-service.ts). -/
structure Comment where
  id : String
  postId : String
  parentCommentId : Option String
  authorPublicKey : String
  content : String
  timestamp : Int
  upvotes : Int
  downvotes : Int
  signature : String
deriving DecidableEq

/-- `Vote` record (database-service.ts). -/
structure Vote where
  id : String
  targetId : String
  targetType : TType
  authorPublicKey : String
  value : Int
  timestamp : Int
  signature : String
deriving DecidableEq

/-- `Notification` record (database-service.ts). -/
structure Notification where
  id : String
  recipientPublicKey : String
  sourcePublicKey : String
  targetId : String
  targetType : TType
  action : NAction
  isRead : Bool
  timestamp : Int
  expiresAt : Int
deriving DecidableEq

/-- The local replica: the four IndexedDB object stores. -/
structure Store where
  posts : List Post
  comments : List Comment
  votes : List Vote
  notifications : List Notification
deriving DecidableEq

/-- `getItem`: lookup by primary key (`keyPath: 'id'`). -/
def findBy {α : Type} (key : α → String) (l : List α) (i : String) : Option α :=
  l.find? (fun a => decide (key a = i))

/-- `store.add`: insert, failing if the primary key already exists. -/
def addBy {α : Type} (key : α → String) (l : List α) (x : α) : Option (List α) :=
  if l.any (fun a => decide (key a = key x)) then none else some (l ++ [x])

/-- `store.put`: replace the record with the same primary key, or insert. -/
def putBy {α : Type} (key : α → String) (l : List α) (x : α) : List α :=
  if l.any (fun a => decide (key a = key x)) then
    l.map (fun a => if key a = key x then x else a)
  else l ++ [x]

/-- `store.delete`: remove the record with the given primary key. -/
def delBy {α : Type} (key : α → String) (l : List α) (i : String) : List α :=
  l.filter (fun a => !(decide (key a = i)))

def Store.getPost (s : Store) (i : String) : Option Post := findBy Post.id s.posts i

def Store.getComment (s : Store) (i : String) : Option Comment := findBy Comment.id s.comments i

def Store.getVote (s : Store) (i : String) : Option Vote := findBy Vote.id s.votes i

def Store.getNotif (s : Store) (i : String) : Option Notification :=
  findBy Notification.id s.notifications i

def Store.addPostItem (s : Store) (p : Post) : Option Store :=
  (addBy Post.id s.posts p).map (fun l => { s with posts := l })

def Store.addCommentItem (s : Store) (c : Comment) : Option Store :=
  (addBy Comment.id s.comments c).map (fun l => { s with comments := l })

/-- The votes store additionally has the `unique_vote` unique index on
`[targetId, targetType, authorPublicKey]`; `store.add` fails when either the
primary key or that compound key collides. -/
def Store.addVoteItem (s : Store) (v : Vote) : Option Store :=
  if s.votes.any (fun w => decide (w.id = v.id) ||
      decide (w.targetId = v.targetId ∧ w.targetType = v.targetType ∧
        w.authorPublicKey = v.authorPublicKey)) then
    none
  else some { s with votes := s.votes ++ [v] }

def Store.addNotifItem (s : Store) (n : Notification) : Option Store :=
  (addBy Notification.id s.notifications n).map (fun l => { s with notifications := l })

/-- `DatabaseService.updateVoteCount`: read-modify-write of the target's
counters. For a positive `value` it adds `value` to `upvotes`; otherwise it
adds `Math.abs(value)` to `downvotes`. Fails (throws) when the target is
missing; the throw happens before any write. -/
def updateVoteCount (s : Store) (targetId : String) (tt : TType) (value : Int) :
    Option Store :=
  match tt with
  | .post =>
    match s.getPost targetId with
    | none => none
    | some p =>
      let p' := if value > 0 then { p with upvotes := p.upvotes + value }
        else { p with downvotes := p.downvotes + (value.natAbs : Int) }
      some { s with posts := putBy Post.id s.posts p' }
  | .comment =>
    match s.getComment targetId with
    | none => none
    | some c =>
      let c' := if value > 0 then { c with upvotes := c.upvotes + value }
        else { c with downvotes := c.downvotes + (value.natAbs : Int) }
      some { s with comments := putBy Comment.id s.comments c' }

/-- The `unique_vote` index key predicate used by `addVote`'s
`IDBKeyRange.only([targetId, targetType, authorPublicKey])` lookup. -/
def voteMatches (targetId : String) (tt : TType) (author : String) (v : Vote) : Bool :=
  decide (v.targetId = targetId ∧ v.targetType = tt ∧ v.authorPublicKey = author)

/-- `DatabaseService.createNotificationForVote`: upvote notification unless the
voter is the target's author or the target is missing. Its internal
try/catch swallows `addItem` failures. -/
def createNotificationForVote (s : Store) (v : Vote) (notifId : String) (now : Int) :
    Store :=
  if v.value ≠ 1 then s
  else
    let authorOf : Option String :=
      match v.targetType with
      | .post => (s.getPost v.targetId).map Post.authorPublicKey
      | .comment => (s.getComment v.targetId).map Comment.authorPublicKey
    match authorOf with
    | none => s
    | some a =>
      if a = v.authorPublicKey then s
      else
        let n : Notification :=
          { id := notifId, recipientPublicKey := a, sourcePublicKey := v.authorPublicKey,
            targetId := v.targetId, targetType := v.targetType, action := .upvote,
            isRead := false, timestamp := now,
            expiresAt := now + 7 * 24 * 60 * 60 * 1000 }
        match s.addNotifItem n with
        | some s1 => s1
        | none => s

/-- `DatabaseService.addVote` (the local `castVote` operation), with the
generated UUIDs, signature, and `Date.now()` as explicit parameters. -/
def castVote (s : Store) (targetId : String) (tt : TType) (value : Int)
    (author newId sig notifId : String) (now : Int) : Store :=
  match s.votes.filter (voteMatches targetId tt author) with
  | v :: _ =>
    if v.value = value then
      -- same value: toggle, delete the vote then reverse the counter
      let s1 := { s with votes := delBy Vote.id s.votes v.id }
      match updateVoteCount s1 targetId tt (-value) with
      | some s2 => s2
      | none => s1
    else
      -- opposite value: flip; counter update runs before the vote is put
      match updateVoteCount s targetId tt (value * 2) with
      | none => s
      | some s1 =>
        { s1 with votes := putBy Vote.id s1.votes { v with value := value, timestamp := now } }
  | [] =>
    let nv : Vote :=
      { id := newId, targetId := targetId, targetType := tt, authorPublicKey := author,
        value := value, timestamp := now, signature := sig }
    match s.addVoteItem nv with
    | none => s
    | some s1 =>
      match updateVoteCount s1 targetId tt value with
      | none => s1
      | some s2 => if value = 1 then createNotificationForVote s2 nv notifId now else s2

/-- `DatabaseService.addPost`: the content parameter is the already-encrypted
envelope string; counters start at zero. `addItem` failure propagates as an
exception, leaving the store unchanged. -/
def addPost (s : Store) (content author id sig : String) (now : Int) : Store :=
  let p : Post :=
    { id := id, authorPublicKey := author, content := content, timestamp := now,
      upvotes := 0, downvotes := 0, commentCount := 0, signature := sig }
  match s.addPostItem p with
  | some s1 => s1
  | none => s

/-- `DatabaseService.createNotificationForReply`: notifies the parent-comment
author (nested reply) or the post author (top-level comment), unless the
commenter is that author; mirrors the source's empty-string recipient
sentinel. Its internal try/catch swallows `addItem` failures. -/
def createNotificationForReply (s : Store) (c : Comment) (notifId : String) (now : Int) :
    Store :=
  let rtt : String × String × TType :=
    match c.parentCommentId with
    | some pid =>
      match s.getComment pid with
      | some pc =>
        if pc.authorPublicKey ≠ c.authorPublicKey then (pc.authorPublicKey, pid, .comment)
        else ("", "", .post)
      | none => ("", "", .post)
    | none =>
      match s.getPost c.postId with
      | some p =>
        if p.authorPublicKey ≠ c.authorPublicKey then (p.authorPublicKey, c.postId, .post)
        else ("", "", .post)
      | none => ("", "", .post)
  if rtt.1 = "" then s
  else
    let n : Notification :=
      { id := notifId, recipientPublicKey := rtt.1, sourcePublicKey := c.authorPublicKey,
        targetId := rtt.2.1, targetType := rtt.2.2, action := .reply,
        isRead := false, timestamp := now, expiresAt := now + 7 * 24 * 60 * 60 * 1000 }
    match s.addNotifItem n with
    | some s1 => s1
    | none => s

/-- `DatabaseService.addComment`: insert the comment, increment the parent
post's `commentCount` (if the post exists), then run reply-notification
generation. -/
def addComment (s : Store) (postId content author : String) (parent : Option String)
    (id sig notifId : String) (now : Int) : Store :=
  let c : Comment :=
    { id := id, postId := postId, parentCommentId := parent, authorPublicKey := author,
      content := content, timestamp := now, upvotes := 0, downvotes := 0, signature := sig }
  match s.addCommentItem c with
  | none => s
  | some s1 =>
    let s2 :=
      match s1.getPost postId with
      | some p => { s1 with posts := putBy Post.id s1.posts { p with commentCount := p.commentCount + 1 } }
      | none => s1
    createNotificationForReply s2 c notifId now

/-- Insertion step of the timestamp-descending sort used by `getNotifications`. -/
def insertByTs (n : Notification) : List Notification → List Notification
  | [] => [n]
  | m :: rest => if m.timestamp ≤ n.timestamp then n :: m :: rest else m :: insertByTs n rest

/-- Sort notifications newest-first (`sort((a, b) => b.timestamp - a.timestamp)`). -/
def sortByTsDesc (l : List Notification) : List Notification := l.foldr insertByTs []

/-- `DatabaseService.getNotifications`: filter by recipient (the `byRecipient`
index), optionally by unread status, then sort newest-first. It never
consults `expiresAt`. -/
def getNotifications (s : Store) (user : String) (unreadOnly : Bool) : List Notification :=
  let ns := s.notifications.filter (fun n => decide (n.recipientPublicKey = user))
  let filtered := if unreadOnly then ns.filter (fun n => !n.isRead) else ns
  sortByTsDesc filtered

/-- `DatabaseService.markNotificationAsRead`. -/
def markNotificationAsRead (s : Store) (i : String) : Store :=
  match s.getNotif i with
  | some n =>
    { s with notifications := putBy Notification.id s.notifications { n with isRead := true } }
  | none => s

/-- `DatabaseService.cleanupExpiredNotifications`: query the `byExpiration`
index with `IDBKeyRange.upperBound(now)` (inclusive), then delete each found
notification by id. -/
def cleanupExpiredNotifications (s : Store) (now : Int) : Store :=
  let expired := s.notifications.filter (fun n => decide (n.expiresAt ≤ now))
  { s with notifications := expired.foldl (fun acc n => delBy Notification.id acc n.id) s.notifications }

/-- `DatabaseService.deleteAllUserData`: for each table, query by author (for
notifications, by recipient) and delete each found record by id. -/
def deleteAllUserData (s : Store) (pk : String) : Store :=
  let userPosts := s.posts.filter (fun p => decide (p.authorPublicKey = pk))
  let s1 := { s with posts := userPosts.foldl (fun acc (p : Post) => delBy Post.id acc p.id) s.posts }
  let userComments := s1.comments.filter (fun c => decide (c.authorPublicKey = pk))
  let s2 := { s1 with comments := userComments.foldl (fun acc (c : Comment) => delBy Comment.id acc c.id) s1.comments }
  let userVotes := s2.votes.filter (fun v => decide (v.authorPublicKey = pk))
  let s3 := { s2 with votes := userVotes.foldl (fun acc (v : Vote) => delBy Vote.id acc v.id) s2.votes }
  let userNotifs := s3.notifications.filter (fun n => decide (n.recipientPublicKey = pk))
  { s3 with notifications := userNotifs.foldl (fun acc (n : Notification) => delBy Notification.id acc n.id) s3.notifications }

/-- The canonical signed payload of a post: exactly the fields serialized by
`JSON.stringify` in `addPost` / the posts listener (id, authorPublicKey,
content, timestamp). `JSON.stringify` is injective on these field tuples, so
the payload is modelled as the tuple itself. -/
structure PostPayload where
  id : String
  authorPublicKey : String
  content : String
  timestamp : Int
deriving DecidableEq

/-- The canonical signed payload of a comment. -/
structure CommentPayload where
  id : String
  postId : String
  parentCommentId : Option String
  authorPublicKey : String
  content : String
  timestamp : Int
deriving DecidableEq

/-- The canonical signed payload of a vote. -/
structure VotePayload where
  id : String
  targetId : String
  targetType : TType
  authorPublicKey : String
  value : Int
  timestamp : Int
deriving DecidableEq

def Post.payload (p : Post) : PostPayload :=
  { id := p.id, authorPublicKey := p.authorPublicKey, content := p.content,
    timestamp := p.timestamp }

def Comment.payload (c : Comment) : CommentPayload :=
  { id := c.id, postId := c.postId, parentCommentId := c.parentCommentId,
    authorPublicKey := c.authorPublicKey, content := c.content, timestamp := c.timestamp }

def Vote.payload (v : Vote) : VotePayload :=
  { id := v.id, targetId := v.targetId, targetType := v.targetType,
    authorPublicKey := v.authorPublicKey, value := v.value, timestamp := v.timestamp }

/-- The posts listener in `P2PService.startListening`: skip falsy/missing ids,
dedupe by id, verify the signature (`verifySignature` never throws: it
catches internally and returns false, so the listener's verify-exception
branch is unreachable), then `addItem`. Any exception is caught by the
listener's outer try/catch. -/
def handlePost (verifyP : PostPayload → String → String → Bool) (s : Store) (d : Post) :
    Store :=
  if d.id = "" then s
  else
    match s.getPost d.id with
    | some _ => s
    | none =>
      if verifyP d.payload d.signature d.authorPublicKey then
        match s.addPostItem d with
        | some s1 => s1
        | none => s
      else s

/-- The comments listener: dedupe by id, verify, `addItem`, then increment the
parent post's `commentCount` when the post exists locally. It does not run
notification generation. -/
def handleComment (verifyC : CommentPayload → String → String → Bool) (s : Store)
    (d : Comment) : Store :=
  if d.id = "" then s
  else
    match s.getComment d.id with
    | some _ => s
    | none =>
      if verifyC d.payload d.signature d.authorPublicKey then
        match s.addCommentItem d with
        | none => s
        | some s1 =>
          match s1.getPost d.postId with
          | some p =>
            { s1 with posts := putBy Post.id s1.posts { p with commentCount := p.commentCount + 1 } }
          | none => s1
      else s

/-- The votes listener: dedupe by id, verify, `addItem` (which can also fail on
the `unique_vote` index), then `updateVoteCount`; a failure in either step is
caught by the outer try/catch, keeping the partial state. -/
def handleVote (verifyV : VotePayload → String → String → Bool) (s : Store) (d : Vote) :
    Store :=
  if d.id = "" then s
  else
    match s.getVote d.id with
    | some _ => s
    | none =>
      if verifyV d.payload d.signature d.authorPublicKey then
        match s.addVoteItem d with
        | none => s
        | some s1 =>
          match updateVoteCount s1 d.targetId d.targetType d.value with
          | some s2 => s2
          | none => s1
      else s

/-- The base64 alphabet used by `btoa`/`atob`
(`CryptoService.bufferToBase64` / `base64ToBuffer`). -/
def b64Table : List Char :=
  "ABCDEFGHIJKLMNOPQRSTUVWXYZabcdefghijklmnopqrstuvwxyz0123456789+/".toList

def b64Char (n : Nat) : Char := b64Table.getD n 'A'

def b64Index (c : Char) : Nat := b64Table.findIdx (fun d => decide (d = c))

/-- `CryptoService.bufferToBase64` composed with `btoa`: standard base64 with
`'='` padding over a byte list. -/
def encodeB64 : List Nat → List Char
  | [] => []
  | [a] => [b64Char (a / 4), b64Char (a % 4 * 16), '=', '=']
  | [a, b] => [b64Char (a / 4), b64Char (a % 4 * 16 + b / 16), b64Char (b % 16 * 4), '=']
  | a :: b :: c :: rest =>
    b64Char (a / 4) :: b64Char (a % 4 * 16 + b / 16) :: b64Char (b % 16 * 4 + c / 64) ::
      b64Char (c % 64) :: encodeB64 rest

/-- `atob` composed with `CryptoService.base64ToBuffer`. -/
def decodeB64 : List Char → List Nat
  | c1 :: c2 :: c3 :: c4 :: rest =>
    if c3 = '=' then [b64Index c1 * 4 + b64Index c2 / 16]
    else if c4 = '=' then
      [b64Index c1 * 4 + b64Index c2 / 16, b64Index c2 % 16 * 16 + b64Index c3 / 4]
    else
      (b64Index c1 * 4 + b64Index c2 / 16) :: (b64Index c2 % 16 * 16 + b64Index c3 / 4) ::
        (b64Index c3 % 4 * 64 + b64Index c4) :: decodeB64 rest
  | _ => []

/-- The `EncryptedData` envelope (types.ts): base64 ciphertext, base64 IV, and
the wrapped per-item key as `base64(encryptedKey) + '.' + base64(keyIv)`. -/
structure EncryptedData where
  ciphertext : List Char
  iv : List Char
  key : List Char
deriving DecidableEq

/-- JS `String.prototype.split('.')`. -/
def splitOnDot : List Char → List (List Char)
  | [] => [[]]
  | c :: rest =>
    if c = '.' then [] :: splitOnDot rest
    else
      match splitOnDot rest with
      | h :: t => (c :: h) :: t
      | [] => [[c]]

/-- `CryptoService.encryptData`. The WebCrypto AES-GCM primitive is the
parameter `aesEnc key iv plaintext`, `TextEncoder` is `textEncode`, and the
randomly generated data key and IVs are explicit parameters. Fails when the
master key has not been initialized. -/
def encryptData (aesEnc : List Nat → List Nat → List Nat → List Nat)
    (textEncode : List Char → List Nat) (masterKey : Option (List Nat))
    (s : List Char) (dataKey iv keyIv : List Nat) : Option EncryptedData :=
  match masterKey with
  | none => none
  | some mk =>
    let dataBuffer := textEncode s
    let cipherBuffer := aesEnc dataKey iv dataBuffer
    let encryptedKeyBuffer := aesEnc mk keyIv dataKey
    some { ciphertext := encodeB64 cipherBuffer, iv := encodeB64 iv,
           key := encodeB64 encryptedKeyBuffer ++ '.' :: encodeB64 keyIv }

/-- `CryptoService.decryptData`. `aesDec key iv ciphertext` is the WebCrypto
decrypt primitive (`none` = authentication failure), `textDecode` is
`TextDecoder`. Mirrors the missing-key check and the `split('.')`
destructuring of the wrapped key. -/
def decryptData (aesDec : List Nat → List Nat → List Nat → Option (List Nat))
    (textDecode : List Nat → List Char) (masterKey : Option (List Nat))
    (e : EncryptedData) : Option (List Char) :=
  match masterKey with
  | none => none
  | some mk =>
    let cipherBuffer := decodeB64 e.ciphertext
    let ivBuffer := decodeB64 e.iv
    if e.key = [] then none
    else
      match splitOnDot e.key with
      | encKeyB64 :: keyIvB64 :: _ =>
        match aesDec mk (decodeB64 keyIvB64) (decodeB64 encKeyB64) with
        | none => none
        | some dataKeyBuffer =>
          match aesDec dataKeyBuffer ivBuffer cipherBuffer with
          | none => none
          | some plain => some (textDecode plain)
      | _ => none

/-- The store operations of the data layer, with all nondeterministic inputs
(ids, timestamps, signatures) and the verification primitive embedded, so
that state evolution is a fold over a list of operations. -/
inductive Op where
  | opAddPost (content author id sig : String) (now : Int)
  | opAddComment (postId content author : String) (parent : Option String)
      (id sig notifId : String) (now : Int)
  | opCastVote (targetId : String) (tt : TType) (value : Int)
      (author newId sig notifId : String) (now : Int)
  | opRemotePost (verifyP : PostPayload → String → String → Bool) (d : Post)
  | opRemoteComment (verifyC : CommentPayload → String → String → Bool) (d : Comment)
  | opRemoteVote (verifyV : VotePayload → String → String → Bool) (d : Vote)
  | opMarkRead (i : String)
  | opCleanup (now : Int)
  | opPurge (pk : String)

/-- Apply one store operation. -/
def Op.apply : Op → Store → Store
  | .opAddPost content author id sig now, s => addPost s content author id sig now
  | .opAddComment postId content author parent id sig notifId now, s =>
    addComment s postId content author parent id sig notifId now
  | .opCastVote targetId tt value author newId sig notifId now, s =>
    castVote s targetId tt value author newId sig notifId now
  | .opRemotePost verifyP d, s => handlePost verifyP s d
  | .opRemoteComment verifyC d, s => handleComment verifyC s d
  | .opRemoteVote verifyV d, s => handleVote verifyV s d
  | .opMarkRead i, s => markNotificationAsRead s i
  | .opCleanup now, s => cleanupExpiredNotifications s now
  | .opPurge pk, s => deleteAllUserData s pk

/-- Keys (record ids) in an object store are unique: IndexedDB's `keyPath`
guarantee, an invariant of every reachable store. -/
def WfKey {α : Type} (key : α → String) (l : List α) : Prop :=
  l.Pairwise (fun a b => key a ≠ key b)

/-- All four tables have unique ids. -/
def Store.Wf (s : Store) : Prop :=
  WfKey Post.id s.posts ∧ WfKey Comment.id s.comments ∧ WfKey Vote.id s.votes ∧
    WfKey Notification.id s.notifications

/-- The vote-uniqueness invariant: no two vote records share
`(targetId, targetType, authorPublicKey)`. -/
def VoteUniq (l : List Vote) : Prop :=
  l.Pairwise (fun a b => ¬(a.targetId = b.targetId ∧ a.targetType = b.targetType ∧
    a.authorPublicKey = b.authorPublicKey))

/-- Vote counters never decrease between two states, for every post and
comment identified by id. -/
def StoreMono (s s' : Store) : Prop :=
  (∀ i p p', s.getPost i = some p → s'.getPost i = some p' →
    p.upvotes ≤ p'.upvotes ∧ p.downvotes ≤ p'.downvotes) ∧
  (∀ i c c', s.getComment i = some c → s'.getComment i = some c' →
    c.upvotes ≤ c'.upvotes ∧ c.downvotes ≤ c'.downvotes)

/-- Stronger, composable form: every post/comment stays present with
non-decreased counters (no intermediate step of any single operation
deletes a post or comment). -/
def Grow (s s' : Store) : Prop :=
  (∀ i p, s.getPost i = some p → ∃ p', s'.getPost i = some p' ∧
    p.upvotes ≤ p'.upvotes ∧ p.downvotes ≤ p'.downvotes) ∧
  (∀ i c, s.getComment i = some c → ∃ c', s'.getComment i = some c' ∧
    c.upvotes ≤ c'.upvotes ∧ c.downvotes ≤ c'.downvotes)

/-- The invariant of the votes table: unique primary keys (IndexedDB `keyPath`)
and unique `(targetId, targetType, authorPublicKey)` triples (the
`unique_vote` index). -/
def VotesWf (l : List Vote) : Prop := WfKey Vote.id l ∧ VoteUniq l

/-- Fixture: a post by "alice" with all counters at zero. -/
def alicePost : Post :=
  { id := "p1", authorPublicKey := "alice", content := "enc", timestamp := 0,
    upvotes := 0, downvotes := 0, commentCount := 0, signature := "sg" }

/-- Fixture: a store holding only `alicePost`. -/
def exStore : Store := { posts := [alicePost], comments := [], votes := [], notifications := [] }

/-- Fixture: the store after Bob upvotes `alicePost` once. -/
def toggleOnce : Store := castVote exStore "p1" .post 1 "bob" "v1" "sv" "n1" 10

/-- Fixture: the store after Bob casts the same upvote a second time
(the toggle / retraction path). -/
def toggleTwice : Store := castVote toggleOnce "p1" .post 1 "bob" "v2" "sv" "n2" 20

/-- Fixture: the store after Bob upvotes and then downvotes (the flip path). -/
def flipStore : Store := castVote toggleOnce "p1" .post (-1) "bob" "v3" "sv" "n3" 30

/-- Fixture: an already-expired notification (expiresAt 5) for recipient "r". -/
def expiredNotif : Notification :=
  { id := "n1", recipientPublicKey := "r", sourcePublicKey := "src", targetId := "p1",
    targetType := .post, action := .reply, isRead := false, timestamp := 0, expiresAt := 5 }

/-- Fixture: an unexpired notification (expiresAt 20) for recipient "r". -/
def goodNotif : Notification :=
  { id := "n2", recipientPublicKey := "r", sourcePublicKey := "src", targetId := "p1",
    targetType := .post, action := .reply, isRead := false, timestamp := 1, expiresAt := 20 }

/-- Fixture: a store holding one expired and one live notification. -/
def notifStore : Store :=
  { posts := [], comments := [], votes := [], notifications := [expiredNotif, goodNotif] }

/-- Fixture: a remote comment by "bob" on Alice's post. -/
def remoteComment : Comment :=
  { id := "c1", postId := "p1", parentCommentId := none, authorPublicKey := "bob",
    content := "x", timestamp := 5, upvotes := 0, downvotes := 0, signature := "sc" }

/-- Fixture: a remote vote by "bob" on Alice's post. -/
def remoteVote : Vote :=
  { id := "rv1", targetId := "p1", targetType := .post, authorPublicKey := "bob",
    value := 1, timestamp := 5, signature := "sv" }

/-- Fixture: the single Vote record left after the flip: Bob's vote with its
value updated to -1 and its timestamp refreshed. -/
def flippedVote : Vote :=
  { id := "v1", targetId := "p1", targetType := .post, authorPublicKey := "bob",
    value := -1, timestamp := 30, signature := "sv" }

/-- Fixture: a remote post by "carol". -/
def remotePost : Post :=
  { id := "p2", authorPublicKey := "carol", content := "enc2", timestamp := 3,
    upvotes := 4, downvotes := 2, commentCount := 0, signature := "sg2" }

/-- A verifier that accepts everything (stands for successful signature
verification of a well-formed record). -/
def acceptP : PostPayload → String → String → Bool := fun _ _ _ => true

def acceptC : CommentPayload → String → String → Bool := fun _ _ _ => true

def acceptV : VotePayload → String → String → Bool := fun _ _ _ => true

/-- A verifier that rejects everything (stands for a failing signature check). -/
def rejectP : PostPayload → String → String → Bool := fun _ _ _ => false

def rejectC : CommentPayload → String → String → Bool := fun _ _ _ => false

def rejectV : VotePayload → String → String → Bool := fun _ _ _ => false

/-- Fixture: the result of `updateVoteCount exStore "p1" post 1`. -/
def exStoreUpd : Store :=
  { posts := [{ alicePost with upvotes := alicePost.upvotes + 1 }], comments := [],
    votes := [], notifications := [] }

/-- Fixture: a second post by a different author. -/
def bobPost : Post :=
  { id := "p3", authorPublicKey := "bobby", content := "enc3", timestamp := 2,
    upvotes := 0, downvotes := 0, commentCount := 0, signature := "sg3" }

/-- Fixture: a store holding posts by two different authors. -/
def twoPostStore : Store :=
  { posts := [alicePost, bobPost], comments := [], votes := [], notifications := [] }

theorem findBy_eq_none {α : Type} {key : α → String} {l : List α} {i : String} :
    findBy key l i = none ↔ ∀ a ∈ l, key a ≠ i := by
  simp [findBy, List.find?_eq_none]

theorem findBy_key_of_some {α : Type} {key : α → String} {l : List α} {i : String} {x : α}
    (h : findBy key l i = some x) : key x = i := by
  have := List.find?_some h
  simpa using this

theorem mem_of_findBy_some {α : Type} {key : α → String} {l : List α} {i : String} {x : α}
    (h : findBy key l i = some x) : x ∈ l :=
  List.mem_of_find?_eq_some h

theorem findBy_append {α : Type} (key : α → String) (l l' : List α) (i : String) :
    findBy key (l ++ l') i = (findBy key l i).or (findBy key l' i) := by
  simp [findBy, List.find?_append]

theorem findBy_map_replace {α : Type} {key : α → String} {x : α} {i : String}
    (l : List α) (hne : key x ≠ i) :
    findBy key (l.map fun a => if key a = key x then x else a) i = findBy key l i := by
  induction l with
  | nil => rfl
  | cons a t ih =>
    by_cases hax : key a = key x
    · have hai : key a ≠ i := fun h => hne (hax ▸ h)
      simp only [List.map_cons, if_pos hax]
      rw [findBy, List.find?_cons_of_neg _ (by simpa using hne),
        findBy, List.find?_cons_of_neg _ (by simpa using hai)]
      exact ih
    · simp only [List.map_cons, if_neg hax]
      by_cases hai : key a = i
      · rw [findBy, List.find?_cons_of_pos _ (by simpa using hai),
          findBy, List.find?_cons_of_pos _ (by simpa using hai)]
      · rw [findBy, List.find?_cons_of_neg _ (by simpa using hai),
          findBy, List.find?_cons_of_neg _ (by simpa using hai)]
        exact ih

theorem findBy_map_replace_self {α : Type} {key : α → String} {x : α} (l : List α)
    (h : ∃ a ∈ l, key a = key x) :
    findBy key (l.map fun a => if key a = key x then x else a) (key x) = some x := by
  induction l with
  | nil => simp at h
  | cons a t ih =>
    by_cases hax : key a = key x
    · simp only [List.map_cons, if_pos hax]
      rw [findBy, List.find?_cons_of_pos _ (by simp)]
    · simp only [List.map_cons, if_neg hax]
      rw [findBy, List.find?_cons_of_neg _ (by simpa using hax)]
      refine ih ?_
      rcases h with ⟨b, hb, hkb⟩
      rcases List.mem_cons.mp hb with rfl | hb'
      · exact absurd hkb hax
      · exact ⟨b, hb', hkb⟩

theorem findBy_putBy_ne {α : Type} {key : α → String} {l : List α} {x : α} {i : String}
    (hne : key x ≠ i) : findBy key (putBy key l x) i = findBy key l i := by
  unfold putBy
  by_cases h : l.any fun a => decide (key a = key x)
  · rw [if_pos h]
    exact findBy_map_replace l hne
  · rw [if_neg h, findBy_append]
    have h1 : findBy key [x] i = none := by
      simp [findBy, List.find?, hne]
    rw [h1, Option.or_none]

theorem findBy_putBy_self {α : Type} {key : α → String} (l : List α) (x : α) :
    findBy key (putBy key l x) (key x) = some x := by
  unfold putBy
  by_cases h : l.any fun a => decide (key a = key x)
  · rw [if_pos h]
    refine findBy_map_replace_self l ?_
    simpa using h
  · rw [if_neg h, findBy_append]
    have h0 : findBy key l (key x) = none := by
      rw [findBy_eq_none]
      intro a ha
      simp at h
      exact h a ha
    rw [h0, Option.none_or]
    simp [findBy, List.find?]

theorem mem_delBy {α : Type} {key : α → String} {l : List α} {i : String} {x : α} :
    x ∈ delBy key l i ↔ x ∈ l ∧ key x ≠ i := by
  simp [delBy, List.mem_filter]

theorem mem_foldl_delBy {α : Type} (key : α → String) (l : List α) (init : List α) (x : α) :
    x ∈ l.foldl (fun acc q => delBy key acc (key q)) init ↔
      x ∈ init ∧ ∀ q ∈ l, key x ≠ key q := by
  induction l generalizing init with
  | nil => simp
  | cons q t ih =>
    simp only [List.foldl_cons]
    rw [ih]
    simp only [mem_delBy, List.mem_cons]
    constructor
    · rintro ⟨⟨hx, hq⟩, ht⟩
      exact ⟨hx, by rintro r (rfl | hr); exact hq; exact ht r hr⟩
    · rintro ⟨hx, hall⟩
      exact ⟨⟨hx, hall q (Or.inl rfl)⟩, fun r hr => hall r (Or.inr hr)⟩

theorem wfKey_inj {α : Type} {key : α → String} {l : List α} (h : WfKey key l) :
    ∀ x ∈ l, ∀ q ∈ l, key x = key q → x = q := by
  induction l with
  | nil => simp
  | cons a t ih =>
    rw [WfKey, List.pairwise_cons] at h
    intro x hx q hq hk
    rcases List.mem_cons.mp hx with rfl | hx' <;> rcases List.mem_cons.mp hq with rfl | hq'
    · rfl
    · exact absurd hk (h.1 q hq')
    · exact absurd hk.symm (h.1 x hx')
    · exact ih h.2 x hx' q hq' hk

theorem mem_insertByTs {x n : Notification} {l : List Notification} :
    x ∈ insertByTs n l ↔ x = n ∨ x ∈ l := by
  induction l with
  | nil => simp [insertByTs]
  | cons m t ih =>
    rw [insertByTs]
    by_cases h : m.timestamp ≤ n.timestamp
    · rw [if_pos h]
      simp
    · rw [if_neg h]
      simp only [List.mem_cons, ih]
      tauto

theorem mem_sortByTsDesc {x : Notification} {l : List Notification} :
    x ∈ sortByTsDesc l ↔ x ∈ l := by
  induction l with
  | nil => simp [sortByTsDesc]
  | cons m t ih =>
    rw [sortByTsDesc, List.foldr_cons]
    rw [show List.foldr insertByTs [] t = sortByTsDesc t from rfl]
    rw [mem_insertByTs, ih]
    simp

theorem addPostItem_spec {s s' : Store} {d : Post} (h : s.addPostItem d = some s') :
    s'.posts = s.posts ++ [d] ∧ s'.comments = s.comments ∧ s'.votes = s.votes ∧
      s'.notifications = s.notifications ∧ ∀ a ∈ s.posts, a.id ≠ d.id := by
  unfold Store.addPostItem addBy at h
  by_cases hany : s.posts.any fun a => decide (a.id = d.id)
  · rw [if_pos hany] at h
    simp at h
  · rw [if_neg hany] at h
    simp only [Option.map_some'] at h
    cases h
    refine ⟨rfl, rfl, rfl, rfl, ?_⟩
    intro a ha
    simp at hany
    exact hany a ha

theorem addCommentItem_spec {s s' : Store} {d : Comment} (h : s.addCommentItem d = some s') :
    s'.comments = s.comments ++ [d] ∧ s'.posts = s.posts ∧ s'.votes = s.votes ∧
      s'.notifications = s.notifications ∧ ∀ a ∈ s.comments, a.id ≠ d.id := by
  unfold Store.addCommentItem addBy at h
  by_cases hany : s.comments.any fun a => decide (a.id = d.id)
  · rw [if_pos hany] at h
    simp at h
  · rw [if_neg hany] at h
    simp only [Option.map_some'] at h
    cases h
    refine ⟨rfl, rfl, rfl, rfl, ?_⟩
    intro a ha
    simp at hany
    exact hany a ha

theorem addVoteItem_spec {s s' : Store} {d : Vote} (h : s.addVoteItem d = some s') :
    s'.votes = s.votes ++ [d] ∧ s'.posts = s.posts ∧ s'.comments = s.comments ∧
      s'.notifications = s.notifications ∧
      ∀ a ∈ s.votes, a.id ≠ d.id ∧
        ¬(a.targetId = d.targetId ∧ a.targetType = d.targetType ∧
          a.authorPublicKey = d.authorPublicKey) := by
  unfold Store.addVoteItem at h
  by_cases hany : s.votes.any fun w => decide (w.id = d.id) ||
      decide (w.targetId = d.targetId ∧ w.targetType = d.targetType ∧
        w.authorPublicKey = d.authorPublicKey)
  · rw [if_pos hany] at h
    simp at h
  · rw [if_neg hany] at h
    cases h
    refine ⟨rfl, rfl, rfl, rfl, ?_⟩
    intro a ha
    simp at hany
    have := hany a ha
    exact ⟨this.1, fun hc => this.2 hc.1 hc.2.1 hc.2.2⟩

theorem addNotifItem_spec {s s' : Store} {n : Notification} (h : s.addNotifItem n = some s') :
    s'.notifications = s.notifications ++ [n] ∧ s'.posts = s.posts ∧
      s'.comments = s.comments ∧ s'.votes = s.votes ∧
      ∀ a ∈ s.notifications, a.id ≠ n.id := by
  unfold Store.addNotifItem addBy at h
  by_cases hany : s.notifications.any fun a => decide (a.id = n.id)
  · rw [if_pos hany] at h
    simp at h
  · rw [if_neg hany] at h
    simp only [Option.map_some'] at h
    cases h
    refine ⟨rfl, rfl, rfl, rfl, ?_⟩
    intro a ha
    simp at hany
    exact hany a ha

/-- `createNotificationForVote` only ever touches the notifications table. -/
theorem createNotificationForVote_frame (s : Store) (v : Vote) (notifId : String) (now : Int) :
    (createNotificationForVote s v notifId now).posts = s.posts ∧
      (createNotificationForVote s v notifId now).comments = s.comments ∧
      (createNotificationForVote s v notifId now).votes = s.votes := by
  unfold createNotificationForVote
  split
  · exact ⟨rfl, rfl, rfl⟩
  · dsimp only
    split
    · exact ⟨rfl, rfl, rfl⟩
    · split
      · exact ⟨rfl, rfl, rfl⟩
      · split
        · rename_i s1 hB
          obtain ⟨_, hp, hc, hv, _⟩ := addNotifItem_spec hB
          exact ⟨hp, hc, hv⟩
        · exact ⟨rfl, rfl, rfl⟩

/-- `createNotificationForReply` only ever touches the notifications table. -/
theorem createNotificationForReply_frame (s : Store) (c : Comment) (notifId : String)
    (now : Int) :
    (createNotificationForReply s c notifId now).posts = s.posts ∧
      (createNotificationForReply s c notifId now).comments = s.comments ∧
      (createNotificationForReply s c notifId now).votes = s.votes := by
  unfold createNotificationForReply
  dsimp only
  split
  · exact ⟨rfl, rfl, rfl⟩
  · split
    · rename_i s1 hB
      obtain ⟨_, hp, hc, hv, _⟩ := addNotifItem_spec hB
      exact ⟨hp, hc, hv⟩
    · exact ⟨rfl, rfl, rfl⟩

/-- `updateVoteCount` leaves votes and notifications alone, and only the
table of its target kind changes. -/
theorem updateVoteCount_frame {s s' : Store} {tid : String} {tt : TType} {v : Int}
    (h : updateVoteCount s tid tt v = some s') :
    s'.votes = s.votes ∧ s'.notifications = s.notifications ∧
      (tt = .post → s'.comments = s.comments) ∧ (tt = .comment → s'.posts = s.posts) := by
  unfold updateVoteCount at h
  cases tt with
  | post =>
    cases hg : s.getPost tid with
    | none => rw [hg] at h; simp at h
    | some p =>
      rw [hg] at h
      simp only [Option.some.injEq] at h
      cases h
      exact ⟨rfl, rfl, fun _ => rfl, fun hc => absurd hc (by decide)⟩
  | comment =>
    cases hg : s.getComment tid with
    | none => rw [hg] at h; simp at h
    | some c =>
      rw [hg] at h
      simp only [Option.some.injEq] at h
      cases h
      exact ⟨rfl, rfl, fun hc => absurd hc (by decide), fun _ => rfl⟩

theorem Grow.rfl {s : Store} : Grow s s :=
  ⟨fun _ p hp => ⟨p, hp, le_refl _, le_refl _⟩, fun _ c hc => ⟨c, hc, le_refl _, le_refl _⟩⟩

theorem Grow.trans {s t u : Store} (h1 : Grow s t) (h2 : Grow t u) : Grow s u := by
  constructor
  · intro i p hp
    obtain ⟨q, hq, hu1, hd1⟩ := h1.1 i p hp
    obtain ⟨r, hr, hu2, hd2⟩ := h2.1 i q hq
    exact ⟨r, hr, le_trans hu1 hu2, le_trans hd1 hd2⟩
  · intro i c hc
    obtain ⟨q, hq, hu1, hd1⟩ := h1.2 i c hc
    obtain ⟨r, hr, hu2, hd2⟩ := h2.2 i q hq
    exact ⟨r, hr, le_trans hu1 hu2, le_trans hd1 hd2⟩

theorem Grow.storeMono {s s' : Store} (h : Grow s s') : StoreMono s s' := by
  constructor
  · intro i p p' hp hp'
    obtain ⟨q, hq, hu, hd⟩ := h.1 i p hp
    rw [hp'] at hq
    cases hq
    exact ⟨hu, hd⟩
  · intro i c c' hc hc'
    obtain ⟨q, hq, hu, hd⟩ := h.2 i c hc
    rw [hc'] at hq
    cases hq
    exact ⟨hu, hd⟩

theorem grow_of_tables {s s' : Store} (hp : s'.posts = s.posts)
    (hc : s'.comments = s.comments) : Grow s s' := by
  constructor
  · intro i p h
    refine ⟨p, ?_, le_refl _, le_refl _⟩
    rw [Store.getPost, hp]
    exact h
  · intro i c h
    refine ⟨c, ?_, le_refl _, le_refl _⟩
    rw [Store.getComment, hc]
    exact h

theorem grow_append_posts {d : Post} {s s' : Store} (hp : s'.posts = s.posts ++ [d])
    (hc : s'.comments = s.comments) : Grow s s' := by
  constructor
  · intro i p h
    refine ⟨p, ?_, le_refl _, le_refl _⟩
    rw [Store.getPost] at h
    rw [Store.getPost, hp, findBy_append, h]
    rfl
  · intro i c h
    refine ⟨c, ?_, le_refl _, le_refl _⟩
    rw [Store.getComment, hc]
    exact h

theorem grow_append_comments {d : Comment} {s s' : Store} (hp : s'.posts = s.posts)
    (hc : s'.comments = s.comments ++ [d]) : Grow s s' := by
  constructor
  · intro i p h
    refine ⟨p, ?_, le_refl _, le_refl _⟩
    rw [Store.getPost, hp]
    exact h
  · intro i c h
    refine ⟨c, ?_, le_refl _, le_refl _⟩
    rw [Store.getComment] at h
    rw [Store.getComment, hc, findBy_append, h]
    rfl

theorem grow_putPost {s : Store} (x p0 : Post) (h : s.getPost x.id = some p0)
    (hu : p0.upvotes ≤ x.upvotes) (hd : p0.downvotes ≤ x.downvotes) :
    Grow s { s with posts := putBy Post.id s.posts x } := by
  constructor
  · intro i p hp
    by_cases hix : x.id = i
    · subst hix
      rw [h] at hp
      cases hp
      refine ⟨x, ?_, hu, hd⟩
      exact findBy_putBy_self s.posts x
    · refine ⟨p, ?_, le_refl _, le_refl _⟩
      rw [Store.getPost] at hp ⊢
      rw [findBy_putBy_ne hix]
      exact hp
  · intro i c hc
    exact ⟨c, hc, le_refl _, le_refl _⟩

theorem grow_putComment {s : Store} (x c0 : Comment) (h : s.getComment x.id = some c0)
    (hu : c0.upvotes ≤ x.upvotes) (hd : c0.downvotes ≤ x.downvotes) :
    Grow s { s with comments := putBy Comment.id s.comments x } := by
  constructor
  · intro i p hp
    exact ⟨p, hp, le_refl _, le_refl _⟩
  · intro i c hc
    by_cases hix : x.id = i
    · subst hix
      rw [h] at hc
      cases hc
      refine ⟨x, ?_, hu, hd⟩
      exact findBy_putBy_self s.comments x
    · refine ⟨c, ?_, le_refl _, le_refl _⟩
      rw [Store.getComment] at hc ⊢
      rw [findBy_putBy_ne hix]
      exact hc

theorem grow_updateVoteCount {s s' : Store} {tid : String} {tt : TType} {v : Int}
    (h : updateVoteCount s tid tt v = some s') : Grow s s' := by
  unfold updateVoteCount at h
  cases tt with
  | post =>
    cases hg : s.getPost tid with
    | none => rw [hg] at h; simp at h
    | some p =>
      rw [hg] at h
      simp only [Option.some.injEq] at h
      have hid : p.id = tid := findBy_key_of_some hg
      subst h
      by_cases hv : v > 0
      · simp only [if_pos hv]
        refine grow_putPost { p with upvotes := p.upvotes + v } p ?_ ?_ ?_
        · show s.getPost p.id = some p
          rw [hid]; exact hg
        · exact le_add_of_nonneg_right (le_of_lt hv)
        · exact le_refl _
      · simp only [if_neg hv]
        refine grow_putPost { p with downvotes := p.downvotes + (v.natAbs : Int) } p ?_ ?_ ?_
        · show s.getPost p.id = some p
          rw [hid]; exact hg
        · exact le_refl _
        · exact le_add_of_nonneg_right (Int.natCast_nonneg _)
  | comment =>
    cases hg : s.getComment tid with
    | none => rw [hg] at h; simp at h
    | some c =>
      rw [hg] at h
      simp only [Option.some.injEq] at h
      have hid : c.id = tid := findBy_key_of_some hg
      subst h
      by_cases hv : v > 0
      · simp only [if_pos hv]
        refine grow_putComment { c with upvotes := c.upvotes + v } c ?_ ?_ ?_
        · show s.getComment c.id = some c
          rw [hid]; exact hg
        · exact le_add_of_nonneg_right (le_of_lt hv)
        · exact le_refl _
      · simp only [if_neg hv]
        refine grow_putComment { c with downvotes := c.downvotes + (v.natAbs : Int) } c ?_ ?_ ?_
        · show s.getComment c.id = some c
          rw [hid]; exact hg
        · exact le_refl _
        · exact le_add_of_nonneg_right (Int.natCast_nonneg _)

theorem grow_addPost (s : Store) (content author id sig : String) (now : Int) :
    Grow s (addPost s content author id sig now) := by
  unfold addPost
  dsimp only
  split
  · rename_i s1 hA
    obtain ⟨hp, hc, _, _, _⟩ := addPostItem_spec hA
    exact grow_append_posts hp hc
  · exact Grow.rfl

theorem grow_addComment (s : Store) (postId content author : String) (parent : Option String)
    (id sig notifId : String) (now : Int) :
    Grow s (addComment s postId content author parent id sig notifId now) := by
  unfold addComment
  dsimp only
  split
  · exact Grow.rfl
  · rename_i s1 hA
    obtain ⟨hcm, hp, _, _, _⟩ := addCommentItem_spec hA
    have g1 : Grow s s1 := grow_append_comments hp hcm
    split
    · rename_i p hg
      have hid : p.id = postId := findBy_key_of_some hg
      have g2 : Grow s1 { s1 with posts := putBy Post.id s1.posts { p with commentCount := p.commentCount + 1 } } := by
        refine grow_putPost { p with commentCount := p.commentCount + 1 } p ?_ (le_refl _) (le_refl _)
        show s1.getPost p.id = some p
        rw [hid]
        exact hg
      exact (g1.trans g2).trans
        (grow_of_tables (createNotificationForReply_frame _ _ _ _).1
          (createNotificationForReply_frame _ _ _ _).2.1)
    · exact g1.trans
        (grow_of_tables (createNotificationForReply_frame _ _ _ _).1
          (createNotificationForReply_frame _ _ _ _).2.1)

theorem grow_castVote (s : Store) (targetId : String) (tt : TType) (value : Int)
    (author newId sig notifId : String) (now : Int) :
    Grow s (castVote s targetId tt value author newId sig notifId now) := by
  unfold castVote
  dsimp only
  cases hF : s.votes.filter (voteMatches targetId tt author) with
  | cons v rest =>
    dsimp only
    by_cases hv : v.value = value
    · rw [if_pos hv]
      cases hU : updateVoteCount { s with votes := delBy Vote.id s.votes v.id } targetId tt (-value) with
      | some s2 =>
        dsimp only
        exact Grow.trans (t := { s with votes := delBy Vote.id s.votes v.id })
          (grow_of_tables rfl rfl) (grow_updateVoteCount hU)
      | none => exact grow_of_tables rfl rfl
    · rw [if_neg hv]
      cases hU : updateVoteCount s targetId tt (value * 2) with
      | none => exact Grow.rfl
      | some s1 => exact (grow_updateVoteCount hU).trans (grow_of_tables rfl rfl)
  | nil =>
    dsimp only
    cases hA : s.addVoteItem { id := newId, targetId := targetId, targetType := tt, authorPublicKey := author, value := value, timestamp := now, signature := sig } with
    | none => exact Grow.rfl
    | some s1 =>
      dsimp only
      obtain ⟨_, hp, hc, _, _⟩ := addVoteItem_spec hA
      have g1 : Grow s s1 := grow_of_tables hp hc
      cases hU : updateVoteCount s1 targetId tt value with
      | none => exact g1
      | some s2 =>
        dsimp only
        have g2 := grow_updateVoteCount hU
        by_cases hv1 : value = 1
        · rw [if_pos hv1]
          exact (g1.trans g2).trans
            (grow_of_tables (createNotificationForVote_frame _ _ _ _).1
              (createNotificationForVote_frame _ _ _ _).2.1)
        · rw [if_neg hv1]
          exact g1.trans g2

theorem grow_handlePost (verifyP : PostPayload → String → String → Bool) (s : Store)
    (d : Post) : Grow s (handlePost verifyP s d) := by
  unfold handlePost
  split
  · exact Grow.rfl
  · split
    · exact Grow.rfl
    · split
      · split
        · rename_i s1 hA
          obtain ⟨hp, hc, _, _, _⟩ := addPostItem_spec hA
          exact grow_append_posts hp hc
        · exact Grow.rfl
      · exact Grow.rfl

theorem grow_handleComment (verifyC : CommentPayload → String → String → Bool) (s : Store)
    (d : Comment) : Grow s (handleComment verifyC s d) := by
  unfold handleComment
  split
  · exact Grow.rfl
  · split
    · exact Grow.rfl
    · split
      · split
        · exact Grow.rfl
        · rename_i s1 hA
          obtain ⟨hcm, hp, _, _, _⟩ := addCommentItem_spec hA
          have g1 : Grow s s1 := grow_append_comments hp hcm
          split
          · rename_i p hg
            have hid : p.id = d.postId := findBy_key_of_some hg
            refine g1.trans (grow_putPost { p with commentCount := p.commentCount + 1 } p ?_ (le_refl _) (le_refl _))
            show s1.getPost p.id = some p
            rw [hid]
            exact hg
          · exact g1
      · exact Grow.rfl

theorem grow_handleVote (verifyV : VotePayload → String → String → Bool) (s : Store)
    (d : Vote) : Grow s (handleVote verifyV s d) := by
  unfold handleVote
  split
  · exact Grow.rfl
  · split
    · exact Grow.rfl
    · split
      · split
        · exact Grow.rfl
        · rename_i s1 hA
          obtain ⟨_, hp, hc, _, _⟩ := addVoteItem_spec hA
          have g1 : Grow s s1 := grow_of_tables hp hc
          split
          · rename_i s2 hU
            exact g1.trans (grow_updateVoteCount hU)
          · exact g1
      · exact Grow.rfl

theorem grow_markRead (s : Store) (i : String) : Grow s (markNotificationAsRead s i) := by
  unfold markNotificationAsRead
  split
  · exact grow_of_tables rfl rfl
  · exact Grow.rfl

theorem grow_cleanup (s : Store) (now : Int) :
    Grow s (cleanupExpiredNotifications s now) :=
  grow_of_tables rfl rfl

theorem getPost_putBy (s : Store) (x : Post) :
    Store.getPost { s with posts := putBy Post.id s.posts x } x.id = some x :=
  findBy_putBy_self s.posts x

theorem getComment_putBy (s : Store) (x : Comment) :
    Store.getComment { s with comments := putBy Comment.id s.comments x } x.id = some x :=
  findBy_putBy_self s.comments x

theorem updateVoteCount_post_spec {s s' : Store} {tid : String} {v : Int} {p : Post}
    (h : updateVoteCount s tid .post v = some s') (hp : s.getPost tid = some p) :
    s'.getPost tid = some (if v > 0 then { p with upvotes := p.upvotes + v }
      else { p with downvotes := p.downvotes + (v.natAbs : Int) }) := by
  unfold updateVoteCount at h
  rw [hp] at h
  simp only [Option.some.injEq] at h
  subst h
  have hid : p.id = tid := findBy_key_of_some hp
  by_cases hv : v > 0
  · simp only [if_pos hv]
    rw [← hid]
    exact getPost_putBy s { p with upvotes := p.upvotes + v }
  · simp only [if_neg hv]
    rw [← hid]
    exact getPost_putBy s { p with downvotes := p.downvotes + (v.natAbs : Int) }

theorem updateVoteCount_comment_spec {s s' : Store} {tid : String} {v : Int} {c : Comment}
    (h : updateVoteCount s tid .comment v = some s') (hc : s.getComment tid = some c) :
    s'.getComment tid = some (if v > 0 then { c with upvotes := c.upvotes + v }
      else { c with downvotes := c.downvotes + (v.natAbs : Int) }) := by
  unfold updateVoteCount at h
  rw [hc] at h
  simp only [Option.some.injEq] at h
  subst h
  have hid : c.id = tid := findBy_key_of_some hc
  by_cases hv : v > 0
  · simp only [if_pos hv]
    rw [← hid]
    exact getComment_putBy s { c with upvotes := c.upvotes + v }
  · simp only [if_neg hv]
    rw [← hid]
    exact getComment_putBy s { c with downvotes := c.downvotes + (v.natAbs : Int) }

theorem storeMono_purge (s : Store) (pk : String) (h : Store.Wf s) :
    StoreMono s (deleteAllUserData s pk) := by
  constructor
  · intro i p p' hp hp'
    have hmem : p ∈ s.posts := mem_of_findBy_some hp
    have hkey : p.id = i := findBy_key_of_some hp
    have hmem' : p' ∈ (deleteAllUserData s pk).posts := mem_of_findBy_some hp'
    have hkey' : p'.id = i := findBy_key_of_some hp'
    have e : (deleteAllUserData s pk).posts =
        (s.posts.filter (fun q => decide (q.authorPublicKey = pk))).foldl
          (fun acc q => delBy Post.id acc q.id) s.posts := rfl
    rw [e, mem_foldl_delBy] at hmem'
    have hpp : p = p' := wfKey_inj h.1 p hmem p' hmem'.1 (by rw [hkey, hkey'])
    cases hpp
    exact ⟨le_refl _, le_refl _⟩
  · intro i c c' hc hc'
    have hmem : c ∈ s.comments := mem_of_findBy_some hc
    have hkey : c.id = i := findBy_key_of_some hc
    have hmem' : c' ∈ (deleteAllUserData s pk).comments := mem_of_findBy_some hc'
    have hkey' : c'.id = i := findBy_key_of_some hc'
    have e : (deleteAllUserData s pk).comments =
        (s.comments.filter (fun q => decide (q.authorPublicKey = pk))).foldl
          (fun acc q => delBy Comment.id acc q.id) s.comments := rfl
    rw [e, mem_foldl_delBy] at hmem'
    have hcc : c = c' := wfKey_inj h.2.1 c hmem c' hmem'.1 (by rw [hkey, hkey'])
    cases hcc
    exact ⟨le_refl _, le_refl _⟩

/-- Every store operation leaves post and comment vote counters
non-decreasing (per id), given unique ids in the store. -/
theorem op_storeMono (op : Op) (s : Store) (h : Store.Wf s) :
    StoreMono s (op.apply s) := by
  cases op with
  | opAddPost content author id sig now => exact (grow_addPost s content author id sig now).storeMono
  | opAddComment postId content author parent id sig notifId now =>
    exact (grow_addComment s postId content author parent id sig notifId now).storeMono
  | opCastVote targetId tt value author newId sig notifId now =>
    exact (grow_castVote s targetId tt value author newId sig notifId now).storeMono
  | opRemotePost verifyP d => exact (grow_handlePost verifyP s d).storeMono
  | opRemoteComment verifyC d => exact (grow_handleComment verifyC s d).storeMono
  | opRemoteVote verifyV d => exact (grow_handleVote verifyV s d).storeMono
  | opMarkRead i => exact (grow_markRead s i).storeMono
  | opCleanup now => exact (grow_cleanup s now).storeMono
  | opPurge pk => exact storeMono_purge s pk h

theorem putBy_eq_map_of_mem {α : Type} [DecidableEq α] {key : α → String} {l : List α} {v x : α}
    (hw : WfKey key l) (hv : v ∈ l) (hk : key x = key v) :
    putBy key l x = l.map (fun a => if a = v then x else a) := by
  unfold putBy
  have hany : (l.any fun a => decide (key a = key x)) = true := by
    simp only [List.any_eq_true, decide_eq_true_eq]
    exact ⟨v, hv, hk.symm⟩
  rw [if_pos hany]
  apply List.map_congr_left
  intro a ha
  by_cases hax : key a = key x
  · have hav : a = v := wfKey_inj hw a ha v hv (hax.trans hk)
    rw [if_pos hax, if_pos hav]
  · have hav : a ≠ v := fun hc => hax (by rw [hc, hk])
    rw [if_neg hax, if_neg hav]

theorem pairwise_replace {α : Type} [DecidableEq α] {R : α → α → Prop} {l : List α} {v x : α}
    (hR : ∀ b, R v b → R x b) (hR' : ∀ b, R b v → R b x) (hp : l.Pairwise R) :
    (l.map fun a => if a = v then x else a).Pairwise R := by
  refine List.Pairwise.map _ ?_ hp
  intro a b hab
  by_cases hav : a = v <;> by_cases hbv : b = v
  · rw [if_pos hav, if_pos hbv]
    have hvb : R v b := by rw [← hav]; exact hab
    have hxv : R x v := by rw [← hbv]; exact hR b hvb
    exact hR' x hxv
  · rw [if_pos hav, if_neg hbv]
    have hvb : R v b := by rw [← hav]; exact hab
    exact hR b hvb
  · rw [if_neg hav, if_pos hbv]
    have hav2 : R a v := by rw [← hbv]; exact hab
    exact hR' a hav2
  · rw [if_neg hav, if_neg hbv]
    exact hab

theorem votesWf_filter {l : List Vote} (p : Vote → Bool) (hw : VotesWf l) :
    VotesWf (l.filter p) :=
  ⟨hw.1.sublist (List.filter_sublist l), hw.2.sublist (List.filter_sublist l)⟩

theorem votesWf_append {l : List Vote} {d : Vote} (hw : VotesWf l)
    (hfresh : ∀ a ∈ l, a.id ≠ d.id ∧ ¬(a.targetId = d.targetId ∧
      a.targetType = d.targetType ∧ a.authorPublicKey = d.authorPublicKey)) :
    VotesWf (l ++ [d]) := by
  constructor
  · rw [WfKey, List.pairwise_append]
    refine ⟨hw.1, by simp, ?_⟩
    intro a ha b hb
    rw [List.mem_singleton] at hb
    subst hb
    exact (hfresh a ha).1
  · rw [VoteUniq, List.pairwise_append]
    refine ⟨hw.2, by simp, ?_⟩
    intro a ha b hb
    rw [List.mem_singleton] at hb
    subst hb
    exact (hfresh a ha).2

theorem votesWf_castVote (s : Store) (targetId : String) (tt : TType) (value : Int)
    (author newId sig notifId : String) (now : Int) (hw : VotesWf s.votes) :
    VotesWf (castVote s targetId tt value author newId sig notifId now).votes := by
  unfold castVote
  dsimp only
  cases hF : s.votes.filter (voteMatches targetId tt author) with
  | cons v rest =>
    dsimp only
    have hvmem : v ∈ s.votes := by
      have h1 : v ∈ s.votes.filter (voteMatches targetId tt author) := by
        rw [hF]
        exact List.mem_cons_self v rest
      exact List.mem_of_mem_filter h1
    by_cases hv : v.value = value
    · rw [if_pos hv]
      have hdel : VotesWf (delBy Vote.id s.votes v.id) := votesWf_filter _ hw
      cases hU : updateVoteCount { s with votes := delBy Vote.id s.votes v.id } targetId tt (-value) with
      | some s2 =>
        dsimp only
        rw [(updateVoteCount_frame hU).1]
        exact hdel
      | none => exact hdel
    · rw [if_neg hv]
      cases hU : updateVoteCount s targetId tt (value * 2) with
      | none => exact hw
      | some s1 =>
        dsimp only
        rw [(updateVoteCount_frame hU).1]
        rw [putBy_eq_map_of_mem hw.1 hvmem (show Vote.id { v with value := value, timestamp := now } = Vote.id v from rfl)]
        constructor
        · exact pairwise_replace (fun b h => h) (fun b h => h) hw.1
        · exact pairwise_replace (fun b h => h) (fun b h => h) hw.2
  | nil =>
    dsimp only
    cases hA : s.addVoteItem { id := newId, targetId := targetId, targetType := tt, authorPublicKey := author, value := value, timestamp := now, signature := sig } with
    | none => exact hw
    | some s1 =>
      dsimp only
      have spec := addVoteItem_spec hA
      have target : VotesWf s1.votes := by
        rw [spec.1]
        exact votesWf_append hw spec.2.2.2.2
      cases hU : updateVoteCount s1 targetId tt value with
      | none => exact target
      | some s2 =>
        dsimp only
        have h2 : s2.votes = s1.votes := (updateVoteCount_frame hU).1
        by_cases hv1 : value = 1
        · rw [if_pos hv1]
          rw [(createNotificationForVote_frame s2 _ _ _).2.2, h2]
          exact target
        · rw [if_neg hv1]
          rw [h2]
          exact target

theorem votesWf_handleVote (verifyV : VotePayload → String → String → Bool) (s : Store)
    (d : Vote) (hw : VotesWf s.votes) : VotesWf (handleVote verifyV s d).votes := by
  unfold handleVote
  split
  · exact hw
  · split
    · exact hw
    · split
      · split
        · exact hw
        · rename_i s1 hA
          have spec := addVoteItem_spec hA
          have target : VotesWf s1.votes := by
            rw [spec.1]
            exact votesWf_append hw spec.2.2.2.2
          split
          · rename_i s2 hU
            rw [(updateVoteCount_frame hU).1]
            exact target
          · exact target
      · exact hw

theorem b64Table_length : b64Table.length = 64 := by decide

theorem b64_roundtrip_char : ∀ n, n < 64 → b64Index (b64Char n) = n := by decide

theorem b64Char_ne_pad : ∀ n, n < 64 → b64Char n ≠ '=' := by decide

theorem b64Char_ne_dot : ∀ n, b64Char n ≠ '.' := by
  intro n
  by_cases h : n < 64
  · exact (by decide : ∀ m, m < 64 → b64Char m ≠ '.') n h
  · unfold b64Char
    rw [List.getD_eq_default _ _ (by rw [b64Table_length]; omega)]
    decide

/-- Base64 decoding inverts encoding on byte lists. -/
theorem decodeB64_encodeB64 : ∀ l : List Nat, (∀ x ∈ l, x < 256) →
    decodeB64 (encodeB64 l) = l := by
  intro l
  induction l using encodeB64.induct with
  | case1 => intro _; rfl
  | case2 a =>
    intro hb
    have ha : a < 256 := hb a (by simp)
    have h1 : a / 4 < 64 := by omega
    have h2 : a % 4 * 16 < 64 := by omega
    rw [encodeB64, decodeB64, if_pos rfl, b64_roundtrip_char _ h1, b64_roundtrip_char _ h2]
    congr 1
    omega
  | case3 a b =>
    intro hb
    have ha : a < 256 := hb a (by simp)
    have hbb : b < 256 := hb b (by simp)
    have h1 : a / 4 < 64 := by omega
    have h2 : a % 4 * 16 + b / 16 < 64 := by omega
    have h3 : b % 16 * 4 < 64 := by omega
    rw [encodeB64, decodeB64, if_neg (b64Char_ne_pad _ h3), if_pos rfl,
      b64_roundtrip_char _ h1, b64_roundtrip_char _ h2, b64_roundtrip_char _ h3]
    congr 1
    · omega
    · congr 1
      omega
  | case4 a b c rest ih =>
    intro hb
    have ha : a < 256 := hb a (by simp)
    have hbb : b < 256 := hb b (by simp)
    have hc : c < 256 := hb c (by simp)
    have h1 : a / 4 < 64 := by omega
    have h2 : a % 4 * 16 + b / 16 < 64 := by omega
    have h3 : b % 16 * 4 + c / 64 < 64 := by omega
    have h4 : c % 64 < 64 := by omega
    rw [encodeB64, decodeB64, if_neg (b64Char_ne_pad _ h3), if_neg (b64Char_ne_pad _ h4),
      b64_roundtrip_char _ h1, b64_roundtrip_char _ h2, b64_roundtrip_char _ h3,
      b64_roundtrip_char _ h4]
    rw [ih (fun x hx => hb x (by simp [hx]))]
    congr 1
    · omega
    · congr 1
      · omega
      · congr 1
        omega

/-- No `'.'` ever occurs in a base64 encoding: the alphabet and the `'='` pad
are dot-free, so `split('.')` in `decryptData` recovers the two components. -/
theorem not_dot_mem_encodeB64 : ∀ l : List Nat, '.' ∉ encodeB64 l := by
  intro l
  induction l using encodeB64.induct with
  | case1 => simp [encodeB64]
  | case2 a =>
    intro h
    rw [encodeB64] at h
    simp only [List.mem_cons, List.not_mem_nil, or_false] at h
    rcases h with h | h | h | h
    · exact b64Char_ne_dot _ h.symm
    · exact b64Char_ne_dot _ h.symm
    · exact absurd h (by decide)
    · exact absurd h (by decide)
  | case3 a b =>
    intro h
    rw [encodeB64] at h
    simp only [List.mem_cons, List.not_mem_nil, or_false] at h
    rcases h with h | h | h | h
    · exact b64Char_ne_dot _ h.symm
    · exact b64Char_ne_dot _ h.symm
    · exact b64Char_ne_dot _ h.symm
    · exact absurd h (by decide)
  | case4 a b c rest ih =>
    intro h
    rw [encodeB64] at h
    simp only [List.mem_cons] at h
    rcases h with h | h | h | h | h
    · exact b64Char_ne_dot _ h.symm
    · exact b64Char_ne_dot _ h.symm
    · exact b64Char_ne_dot _ h.symm
    · exact b64Char_ne_dot _ h.symm
    · exact ih h

theorem splitOnDot_no_dot : ∀ l : List Char, '.' ∉ l → splitOnDot l = [l] := by
  intro l h
  induction l with
  | nil => rfl
  | cons c rest ih =>
    simp only [List.mem_cons, not_or] at h
    rw [splitOnDot, if_neg (fun hc => h.1 hc.symm), ih h.2]

theorem splitOnDot_append (a b : List Char) (ha : '.' ∉ a) :
    splitOnDot (a ++ '.' :: b) = a :: splitOnDot b := by
  induction a with
  | nil =>
    rw [List.nil_append, splitOnDot, if_pos rfl]
  | cons c rest ih =>
    simp only [List.mem_cons, not_or] at ha
    rw [List.cons_append, splitOnDot, if_neg (fun hc => ha.1 hc.symm), ih ha.2]

theorem handlePost_invalid {verifyP : PostPayload → String → String → Bool} {s : Store}
    {d : Post} (h : verifyP d.payload d.signature d.authorPublicKey = false) :
    handlePost verifyP s d = s := by
  unfold handlePost
  split
  · rfl
  · split
    · rfl
    · simp [h]

theorem handleComment_invalid {verifyC : CommentPayload → String → String → Bool} {s : Store}
    {d : Comment} (h : verifyC d.payload d.signature d.authorPublicKey = false) :
    handleComment verifyC s d = s := by
  unfold handleComment
  split
  · rfl
  · split
    · rfl
    · simp [h]

theorem handleVote_invalid {verifyV : VotePayload → String → String → Bool} {s : Store}
    {d : Vote} (h : verifyV d.payload d.signature d.authorPublicKey = false) :
    handleVote verifyV s d = s := by
  unfold handleVote
  split
  · rfl
  · split
    · rfl
    · simp [h]

theorem handlePost_of_found {verifyP : PostPayload → String → String → Bool} {s : Store}
    {d : Post} {x : Post} (h : s.getPost d.id = some x) : handlePost verifyP s d = s := by
  unfold handlePost
  split
  · rfl
  · rw [h]

theorem handleComment_of_found {verifyC : CommentPayload → String → String → Bool} {s : Store}
    {d : Comment} {x : Comment} (h : s.getComment d.id = some x) :
    handleComment verifyC s d = s := by
  unfold handleComment
  split
  · rfl
  · rw [h]

theorem handleVote_of_found {verifyV : VotePayload → String → String → Bool} {s : Store}
    {d : Vote} {x : Vote} (h : s.getVote d.id = some x) : handleVote verifyV s d = s := by
  unfold handleVote
  split
  · rfl
  · rw [h]

theorem addPostItem_of_none {s : Store} {d : Post} (hg : s.getPost d.id = none) :
    s.addPostItem d = some { s with posts := s.posts ++ [d] } := by
  rw [Store.getPost, findBy_eq_none] at hg
  unfold Store.addPostItem addBy
  have hany : (s.posts.any fun a => decide (a.id = d.id)) = false := by
    simp only [List.any_eq_false, decide_eq_true_eq]
    exact hg
  rw [hany]
  rfl

theorem addCommentItem_of_none {s : Store} {d : Comment} (hg : s.getComment d.id = none) :
    s.addCommentItem d = some { s with comments := s.comments ++ [d] } := by
  rw [Store.getComment, findBy_eq_none] at hg
  unfold Store.addCommentItem addBy
  have hany : (s.comments.any fun a => decide (a.id = d.id)) = false := by
    simp only [List.any_eq_false, decide_eq_true_eq]
    exact hg
  rw [hany]
  rfl

theorem addVoteItem_of_fresh {s : Store} {d : Vote}
    (hfresh : ∀ a ∈ s.votes, a.id ≠ d.id ∧ ¬(a.targetId = d.targetId ∧
      a.targetType = d.targetType ∧ a.authorPublicKey = d.authorPublicKey)) :
    s.addVoteItem d = some { s with votes := s.votes ++ [d] } := by
  unfold Store.addVoteItem
  have hany : (s.votes.any fun w => decide (w.id = d.id) ||
      decide (w.targetId = d.targetId ∧ w.targetType = d.targetType ∧
        w.authorPublicKey = d.authorPublicKey)) = false := by
    rw [List.any_eq_false]
    intro a ha
    simp only [Bool.or_eq_true, decide_eq_true_eq, not_or]
    exact ⟨(hfresh a ha).1, (hfresh a ha).2⟩
  rw [hany]
  rfl

theorem handlePost_admitted {verifyP : PostPayload → String → String → Bool} {s : Store}
    {d : Post} (hid : d.id ≠ "") (hg : s.getPost d.id = none)
    (hv : verifyP d.payload d.signature d.authorPublicKey = true) :
    handlePost verifyP s d = { s with posts := s.posts ++ [d] } := by
  unfold handlePost
  rw [if_neg hid, hg, hv, if_pos rfl, addPostItem_of_none hg]

theorem handleComment_admitted {verifyC : CommentPayload → String → String → Bool} {s : Store}
    {d : Comment} (hid : d.id ≠ "") (hg : s.getComment d.id = none)
    (hv : verifyC d.payload d.signature d.authorPublicKey = true) :
    (handleComment verifyC s d).comments = s.comments ++ [d] ∧
      (handleComment verifyC s d).notifications = s.notifications ∧
      (∀ p, s.getPost d.postId = some p →
        (handleComment verifyC s d).getPost d.postId =
          some { p with commentCount := p.commentCount + 1 }) ∧
      (s.getPost d.postId = none →
        handleComment verifyC s d = { s with comments := s.comments ++ [d] }) := by
  unfold handleComment
  rw [if_neg hid, hg, hv, if_pos rfl, addCommentItem_of_none hg]
  dsimp only
  cases hp : s.getPost d.postId with
  | some p =>
    have hp' : Store.getPost { s with comments := s.comments ++ [d] } d.postId = some p := hp
    rw [hp']
    dsimp only
    refine ⟨rfl, rfl, ?_, ?_⟩
    · intro q hq
      cases hq
      have hqid : p.id = d.postId := findBy_key_of_some hp
      rw [← hqid]
      exact getPost_putBy { s with comments := s.comments ++ [d] } { p with commentCount := p.commentCount + 1 }
    · intro hnone
      exact Option.noConfusion hnone
  | none =>
    have hp' : Store.getPost { s with comments := s.comments ++ [d] } d.postId = none := hp
    rw [hp']
    dsimp only
    refine ⟨rfl, rfl, ?_, fun _ => rfl⟩
    intro q hq
    exact Option.noConfusion hq

theorem handleVote_addfail {verifyV : VotePayload → String → String → Bool} {s : Store}
    {d : Vote} (hid : d.id ≠ "") (hg : s.getVote d.id = none)
    (hv : verifyV d.payload d.signature d.authorPublicKey = true)
    (hA : s.addVoteItem d = none) : handleVote verifyV s d = s := by
  unfold handleVote
  rw [if_neg hid, hg, hv, if_pos rfl, hA]

theorem handleVote_admitted_votes {verifyV : VotePayload → String → String → Bool} {s : Store}
    {d : Vote} {s1 : Store} (hid : d.id ≠ "") (hg : s.getVote d.id = none)
    (hv : verifyV d.payload d.signature d.authorPublicKey = true)
    (hA : s.addVoteItem d = some s1) :
    (handleVote verifyV s d).votes = s.votes ++ [d] := by
  unfold handleVote
  rw [if_neg hid, hg, hv, if_pos rfl, hA]
  dsimp only
  cases hU : updateVoteCount s1 d.targetId d.targetType d.value with
  | some s2 =>
    dsimp only
    rw [(updateVoteCount_frame hU).1, (addVoteItem_spec hA).1]
  | none =>
    dsimp only
    rw [(addVoteItem_spec hA).1]

theorem findBy_append_self {α : Type} {key : α → String} {l : List α} {d : α}
    (hg : findBy key l (key d) = none) : findBy key (l ++ [d]) (key d) = some d := by
  rw [findBy_append, hg, Option.none_or]
  simp [findBy, List.find?]

theorem handlePost_idem (verifyP : PostPayload → String → String → Bool) (s : Store)
    (d : Post) : handlePost verifyP (handlePost verifyP s d) d = handlePost verifyP s d := by
  by_cases hid : d.id = ""
  · have e : handlePost verifyP s d = s := by
      unfold handlePost
      rw [if_pos hid]
    rw [e]
    exact e
  · cases hg : s.getPost d.id with
    | some x =>
      have e : handlePost verifyP s d = s := handlePost_of_found hg
      rw [e]
      exact e
    | none =>
      cases hv : verifyP d.payload d.signature d.authorPublicKey with
      | false =>
        have e : handlePost verifyP s d = s := handlePost_invalid hv
        rw [e]
        exact e
      | true =>
        have e : handlePost verifyP s d = { s with posts := s.posts ++ [d] } :=
          handlePost_admitted hid hg hv
        rw [e]
        exact handlePost_of_found (findBy_append_self hg)

theorem handleComment_idem (verifyC : CommentPayload → String → String → Bool) (s : Store)
    (d : Comment) :
    handleComment verifyC (handleComment verifyC s d) d = handleComment verifyC s d := by
  by_cases hid : d.id = ""
  · have e : handleComment verifyC s d = s := by
      unfold handleComment
      rw [if_pos hid]
    rw [e]
    exact e
  · cases hg : s.getComment d.id with
    | some x =>
      have e : handleComment verifyC s d = s := handleComment_of_found hg
      rw [e]
      exact e
    | none =>
      cases hv : verifyC d.payload d.signature d.authorPublicKey with
      | false =>
        have e : handleComment verifyC s d = s := handleComment_invalid hv
        rw [e]
        exact e
      | true =>
        refine handleComment_of_found (x := d) ?_
        show findBy Comment.id (handleComment verifyC s d).comments d.id = some d
        rw [(handleComment_admitted hid hg hv).1]
        exact findBy_append_self hg

theorem handleVote_idem (verifyV : VotePayload → String → String → Bool) (s : Store)
    (d : Vote) : handleVote verifyV (handleVote verifyV s d) d = handleVote verifyV s d := by
  by_cases hid : d.id = ""
  · have e : handleVote verifyV s d = s := by
      unfold handleVote
      rw [if_pos hid]
    rw [e]
    exact e
  · cases hg : s.getVote d.id with
    | some x =>
      have e : handleVote verifyV s d = s := handleVote_of_found hg
      rw [e]
      exact e
    | none =>
      cases hv : verifyV d.payload d.signature d.authorPublicKey with
      | false =>
        have e : handleVote verifyV s d = s := handleVote_invalid hv
        rw [e]
        exact e
      | true =>
        cases hA : s.addVoteItem d with
        | none =>
          have e : handleVote verifyV s d = s := handleVote_addfail hid hg hv hA
          rw [e]
          exact e
        | some s1 =>
          refine handleVote_of_found (x := d) ?_
          show findBy Vote.id (handleVote verifyV s d).votes d.id = some d
          rw [handleVote_admitted_votes hid hg hv hA]
          exact findBy_append_self hg

theorem countP_append_fresh {α : Type} {key : α → String} {l : List α} {d : α}
    (hg : ∀ a ∈ l, key a ≠ key d) :
    (l ++ [d]).countP (fun a => decide (key a = key d)) = 1 := by
  rw [List.countP_append]
  have h0 : l.countP (fun a => decide (key a = key d)) = 0 := by
    rw [List.countP_eq_zero]
    intro a ha
    simp only [decide_eq_true_eq]
    exact hg a ha
  rw [h0]
  simp [List.countP_cons]

theorem purge_table_spec {α : Type} (key : α → String) (attr : α → String)
    (init : List α) (pk : String) (hw : WfKey key init) :
    (∀ x ∈ (init.filter (fun q => decide (attr q = pk))).foldl
        (fun acc q => delBy key acc (key q)) init, attr x ≠ pk) ∧
    (∀ x ∈ init, attr x ≠ pk → x ∈ (init.filter (fun q => decide (attr q = pk))).foldl
        (fun acc q => delBy key acc (key q)) init) ∧
    (∀ x ∈ (init.filter (fun q => decide (attr q = pk))).foldl
        (fun acc q => delBy key acc (key q)) init, x ∈ init) := by
  refine ⟨?_, ?_, ?_⟩
  · intro x hx
    rw [mem_foldl_delBy] at hx
    intro hattr
    refine hx.2 x ?_ rfl
    rw [List.mem_filter]
    exact ⟨hx.1, by simp [hattr]⟩
  · intro x hx hattr
    rw [mem_foldl_delBy]
    refine ⟨hx, ?_⟩
    intro q hq
    rw [List.mem_filter] at hq
    have hqa : attr q = pk := by simpa using hq.2
    intro hk
    have hxq : x = q := wfKey_inj hw x hx q hq.1 hk
    rw [hxq] at hattr
    exact hattr hqa
  · intro x hx
    rw [mem_foldl_delBy] at hx
    exact hx.1

/-- Claim C1. The spec says re-casting the same vote retracts it: the Vote
record is deleted and the matching counter adjusted by -1, so toggling an
upvote twice leaves upvotes at its original value with downvotes unchanged.
The code deletes the Vote record, but the retraction step calls
`updateVoteCount(targetId, type, -value)` and `updateVoteCount` never
subtracts: for a non-positive argument it adds the absolute value to
downvotes. Evaluating `castVote` twice with value +1 on a fresh post shows
upvotes = 1 and downvotes = 1 instead of 0 and 0 (the in-source comments
"Reverse the previous vote" and "Correctly decrement downvotes" state the
intended, contradicted behavior). -/
theorem castVote_toggle_bug :
    toggleTwice.votes = [] ∧
    toggleTwice.getPost "p1" = some { alicePost with upvotes := 1, downvotes := 1 } ∧
    toggleOnce.getPost "p1" = some { alicePost with upvotes := 1 } := by decide

/-- Claim C2. The spec says flipping a vote updates the stored Vote's value
and timestamp (which the code does), decrements the old-polarity counter by 1
and increments the new-polarity counter by 1. The code instead calls
`updateVoteCount(targetId, type, value * 2)`, which for a +1 → -1 flip adds
2 to downvotes and leaves upvotes untouched: after upvote-then-downvote on a
fresh post the counters are upvotes = 1, downvotes = 2 instead of 0 and 1. -/
theorem castVote_flip_bug :
    flipStore.votes = [flippedVote] ∧
    flipStore.getPost "p1" = some { alicePost with upvotes := 1, downvotes := 2 } := by decide

/-- Claim C3. Every counter change goes through `updateVoteCount`, which for a
positive value adds it to upvotes and for a non-positive value adds its
absolute value to downvotes — it never decrements either counter.
Consequently, across every modelled store operation (local creates, castVote
in all branches, remote ingestion of posts/comments/votes, mark-read, the
expiry sweep, and the per-user purge), the upvotes and downvotes of every
post and comment still present are monotonically non-decreasing. -/
theorem voteCount_never_decrements :
    (∀ (s : Store) (tid : String) (v : Int) (s' : Store) (p : Post),
      updateVoteCount s tid .post v = some s' → s.getPost tid = some p →
      s'.getPost tid = some (if v > 0 then { p with upvotes := p.upvotes + v }
        else { p with downvotes := p.downvotes + (v.natAbs : Int) })) ∧
    (∀ (s : Store) (tid : String) (v : Int) (s' : Store) (c : Comment),
      updateVoteCount s tid .comment v = some s' → s.getComment tid = some c →
      s'.getComment tid = some (if v > 0 then { c with upvotes := c.upvotes + v }
        else { c with downvotes := c.downvotes + (v.natAbs : Int) })) ∧
    (∀ (op : Op) (s : Store), Store.Wf s → StoreMono s (Op.apply op s)) :=
  ⟨fun _ _ _ _ _ h hp => updateVoteCount_post_spec h hp,
   fun _ _ _ _ _ h hc => updateVoteCount_comment_spec h hc,
   fun op s h => op_storeMono op s h⟩

/-- Witness for C3 at concrete inputs: an upvote on `exStore` and the purge
operation, with every hypothesis discharged by evaluation. -/
theorem voteCount_never_decrements_witness :
    exStoreUpd.getPost "p1" = some (if (1 : Int) > 0 then
      { alicePost with upvotes := alicePost.upvotes + 1 }
      else { alicePost with downvotes := alicePost.downvotes + ((1 : Int).natAbs : Int) }) ∧
    StoreMono exStore (Op.apply (Op.opPurge "alice") exStore) :=
  ⟨voteCount_never_decrements.1 exStore "p1" 1 exStoreUpd alicePost (by decide) (by decide),
   voteCount_never_decrements.2.2 (Op.opPurge "alice") exStore
     ⟨List.pairwise_singleton _ _, List.Pairwise.nil, List.Pairwise.nil,
       List.Pairwise.nil⟩⟩

/-- Claim C4 counterexample. `getNotifications` filters only by recipient and
read status; it never consults `expiresAt`. At time 10, past the fixture's
expiry time 5, the expired notification is still returned — contradicting
"a Notification is never visible once now ≥ expiresAt". -/
theorem notification_visible_after_expiry :
    expiredNotif ∈ getNotifications notifStore "r" false ∧
    expiredNotif.expiresAt ≤ (10 : Int) := by decide

/-- Claim C4 as amended: an expired notification can remain visible to
`getNotifications` until the sweep runs; once `cleanupExpiredNotifications`
has run at time `now`, no notification with `expiresAt ≤ now` is returned by
any `getNotifications` query. -/
theorem cleanup_hides_expired :
    ∀ (s : Store) (now : Int) (u : String) (ro : Bool) (n : Notification),
      n ∈ getNotifications (cleanupExpiredNotifications s now) u ro → now < n.expiresAt := by
  intro s now u ro n h
  unfold getNotifications at h
  dsimp only at h
  rw [mem_sortByTsDesc] at h
  have hmem : n ∈ (cleanupExpiredNotifications s now).notifications := by
    cases ro with
    | false =>
      rw [if_neg (by simp)] at h
      exact (List.mem_filter.mp h).1
    | true =>
      rw [if_pos rfl] at h
      exact (List.mem_filter.mp (List.mem_filter.mp h).1).1
  have e : (cleanupExpiredNotifications s now).notifications =
      (s.notifications.filter (fun q => decide (q.expiresAt ≤ now))).foldl
        (fun acc q => delBy Notification.id acc q.id) s.notifications := rfl
  rw [e, mem_foldl_delBy] at hmem
  by_contra hlt
  push_neg at hlt
  refine hmem.2 n ?_ rfl
  rw [List.mem_filter]
  exact ⟨hmem.1, by simp [hlt]⟩

/-- Witness for the amended C4: the unexpired notification survives the sweep
at time 10 and the theorem yields its expiry bound. -/
theorem cleanup_hides_expired_witness : (10 : Int) < goodNotif.expiresAt :=
  cleanup_hides_expired notifStore 10 "r" false goodNotif (by decide)

/-- Claim C5 counterexample. The comments listener increments the parent
post's commentCount but never runs notification generation: ingesting a valid
remote comment by "bob" on Alice's post (distinct authors, so the spec
demands a reply Notification for Alice) leaves the notifications table
empty. -/
theorem remote_comment_creates_no_notification :
    (handleComment acceptC exStore remoteComment).notifications = [] ∧
    remoteComment.authorPublicKey ≠ alicePost.authorPublicKey ∧
    (handleComment acceptC exStore remoteComment).getPost "p1" =
      some { alicePost with commentCount := 1 } := by decide

/-- Claim C5 as amended: for every valid remote comment accepted by the
inbound callback, the comment is stored and the parent post's commentCount is
incremented by 1 (when the parent exists locally), but no notification is
generated — the notifications table is unchanged; reply notifications are
produced only by the local `addComment` path. -/
theorem remote_comment_ingestion_effects :
    ∀ (verifyC : CommentPayload → String → String → Bool) (s : Store) (d : Comment) (p : Post),
      d.id ≠ "" → s.getComment d.id = none →
      verifyC d.payload d.signature d.authorPublicKey = true →
      s.getPost d.postId = some p →
      (handleComment verifyC s d).getPost d.postId =
        some { p with commentCount := p.commentCount + 1 } ∧
      d ∈ (handleComment verifyC s d).comments ∧
      (handleComment verifyC s d).notifications = s.notifications := by
  intro verifyC s d p hid hg hv hp
  have ha := handleComment_admitted hid hg hv
  refine ⟨ha.2.2.1 p hp, ?_, ha.2.1⟩
  rw [ha.1]
  simp

/-- Witness for the amended C5 at the concrete fixture. -/
theorem remote_comment_ingestion_effects_witness :
    (handleComment acceptC exStore remoteComment).getPost remoteComment.postId =
      some { alicePost with commentCount := alicePost.commentCount + 1 } ∧
    remoteComment ∈ (handleComment acceptC exStore remoteComment).comments ∧
    (handleComment acceptC exStore remoteComment).notifications = exStore.notifications :=
  remote_comment_ingestion_effects acceptC exStore remoteComment alicePost (by decide)
    (by decide) (by decide) (by decide)

/-- Claim C6. Vote uniqueness: assuming the votes table is well-formed (unique
ids from the IndexedDB keyPath and unique (targetId, targetType,
authorPublicKey) triples), both the local `castVote` (in all three of its
branches: new vote, retraction, flip) and remote-vote ingestion preserve
well-formedness, so at most one Vote record per triple ever exists. The
`unique_vote` index makes the remote insert fail — rejecting the record —
when a conflicting triple arrives under a new id. -/
theorem vote_uniqueness_preserved :
    ∀ (s : Store) (targetId : String) (tt : TType) (value : Int)
      (author newId sig notifId : String) (now : Int)
      (verifyV : VotePayload → String → String → Bool) (d : Vote),
      VotesWf s.votes →
      VotesWf (castVote s targetId tt value author newId sig notifId now).votes ∧
      VotesWf (handleVote verifyV s d).votes :=
  fun s targetId tt value author newId sig notifId now verifyV d hw =>
    ⟨votesWf_castVote s targetId tt value author newId sig notifId now hw,
     votesWf_handleVote verifyV s d hw⟩

/-- Witness for C6 at concrete inputs. -/
theorem vote_uniqueness_preserved_witness :
    VotesWf (castVote exStore "p1" .post 1 "bob" "v1" "sv" "n1" 10).votes ∧
    VotesWf (handleVote acceptV exStore remoteVote).votes :=
  vote_uniqueness_preserved exStore "p1" .post 1 "bob" "v1" "sv" "n1" 10 acceptV remoteVote
    ⟨List.Pairwise.nil, List.Pairwise.nil⟩

/-- Claim C7. Tamper rejection: when signature verification fails for an
inbound post, comment, or vote, the handler returns the store unchanged — the
record is not admitted, no counter moves, and (being a total function, the
listener's outer try/catch) no exception reaches the caller.
`CryptoService.verifySignature` catches internal errors and returns false, so
a failing check is exactly `verify … = false`. -/
theorem tamper_rejection :
    ∀ (verifyP : PostPayload → String → String → Bool)
      (verifyC : CommentPayload → String → String → Bool)
      (verifyV : VotePayload → String → String → Bool)
      (s : Store) (dp : Post) (dc : Comment) (dv : Vote),
      (verifyP dp.payload dp.signature dp.authorPublicKey = false →
        handlePost verifyP s dp = s) ∧
      (verifyC dc.payload dc.signature dc.authorPublicKey = false →
        handleComment verifyC s dc = s) ∧
      (verifyV dv.payload dv.signature dv.authorPublicKey = false →
        handleVote verifyV s dv = s) :=
  fun _ _ _ _ _ _ _ =>
    ⟨fun h => handlePost_invalid h, fun h => handleComment_invalid h,
     fun h => handleVote_invalid h⟩

/-- Witness for C7: rejecting verifiers leave the concrete store untouched. -/
theorem tamper_rejection_witness :
    handlePost rejectP exStore remotePost = exStore ∧
    handleComment rejectC exStore remoteComment = exStore ∧
    handleVote rejectV exStore remoteVote = exStore :=
  ⟨(tamper_rejection rejectP rejectC rejectV exStore remotePost remoteComment remoteVote).1 rfl,
   (tamper_rejection rejectP rejectC rejectV exStore remotePost remoteComment remoteVote).2.1 rfl,
   (tamper_rejection rejectP rejectC rejectV exStore remotePost remoteComment remoteVote).2.2 rfl⟩

/-- Claim C8. Idempotent ingestion: redelivering the same remote record is a
no-op (the dedupe-by-id check fires), so the store — including every
aggregate counter — is exactly the state after the first delivery, and an
admitted record exists in exactly one copy. The idempotence equations hold
unconditionally; the exactly-one-copy counts hold for a fresh, valid record
(for votes, additionally one whose unique-index triple is unused, since a
conflicting insert is rejected altogether). -/
theorem idempotent_ingestion :
    ∀ (verifyP : PostPayload → String → String → Bool)
      (verifyC : CommentPayload → String → String → Bool)
      (verifyV : VotePayload → String → String → Bool)
      (s : Store) (dp : Post) (dc : Comment) (dv : Vote),
      (handlePost verifyP (handlePost verifyP s dp) dp = handlePost verifyP s dp) ∧
      (handleComment verifyC (handleComment verifyC s dc) dc = handleComment verifyC s dc) ∧
      (handleVote verifyV (handleVote verifyV s dv) dv = handleVote verifyV s dv) ∧
      (dp.id ≠ "" → s.getPost dp.id = none →
        verifyP dp.payload dp.signature dp.authorPublicKey = true →
        (handlePost verifyP s dp).posts.countP (fun a => decide (a.id = dp.id)) = 1) ∧
      (dc.id ≠ "" → s.getComment dc.id = none →
        verifyC dc.payload dc.signature dc.authorPublicKey = true →
        (handleComment verifyC s dc).comments.countP (fun a => decide (a.id = dc.id)) = 1) ∧
      (dv.id ≠ "" → s.getVote dv.id = none →
        verifyV dv.payload dv.signature dv.authorPublicKey = true →
        (∀ a ∈ s.votes, a.id ≠ dv.id ∧ ¬(a.targetId = dv.targetId ∧
          a.targetType = dv.targetType ∧ a.authorPublicKey = dv.authorPublicKey)) →
        (handleVote verifyV s dv).votes.countP (fun a => decide (a.id = dv.id)) = 1) := by
  intro verifyP verifyC verifyV s dp dc dv
  refine ⟨handlePost_idem verifyP s dp, handleComment_idem verifyC s dc,
    handleVote_idem verifyV s dv, ?_, ?_, ?_⟩
  · intro hid hg hv
    rw [handlePost_admitted hid hg hv]
    refine countP_append_fresh ?_
    rw [Store.getPost, findBy_eq_none] at hg
    exact hg
  · intro hid hg hv
    rw [(handleComment_admitted hid hg hv).1]
    refine countP_append_fresh ?_
    rw [Store.getComment, findBy_eq_none] at hg
    exact hg
  · intro hid hg hv hfresh
    rw [handleVote_admitted_votes hid hg hv (addVoteItem_of_fresh hfresh)]
    refine countP_append_fresh ?_
    rw [Store.getVote, findBy_eq_none] at hg
    exact hg

/-- Witness for C8 at concrete records, hypotheses discharged by evaluation. -/
theorem idempotent_ingestion_witness :
    handlePost acceptP (handlePost acceptP exStore remotePost) remotePost =
      handlePost acceptP exStore remotePost ∧
    (handlePost acceptP exStore remotePost).posts.countP
      (fun a => decide (a.id = remotePost.id)) = 1 ∧
    (handleVote acceptV exStore remoteVote).votes.countP
      (fun a => decide (a.id = remoteVote.id)) = 1 :=
  ⟨(idempotent_ingestion acceptP acceptC acceptV exStore remotePost remoteComment remoteVote).1,
   (idempotent_ingestion acceptP acceptC acceptV exStore remotePost remoteComment
     remoteVote).2.2.2.1 (by decide) (by decide) (by decide),
   (idempotent_ingestion acceptP acceptC acceptV exStore remotePost remoteComment
     remoteVote).2.2.2.2.2 (by decide) (by decide) (by decide) (by decide)⟩

/-- Helper: the two-author fixture store has unique ids in every table. -/
theorem twoPostStore_wf : Store.Wf twoPostStore := by
  unfold Store.Wf WfKey
  exact ⟨by decide, List.Pairwise.nil, List.Pairwise.nil, List.Pairwise.nil⟩

/-- Claim C9. `deleteAllUserData pk` (the purge) removes every post, comment,
and vote authored by `pk` and every notification addressed to `pk`
(deletions go through the byRecipient index, the reading of "attributable"
the code implements), removes nothing else, and adds nothing: records by
other identities remain. Being a pure function of this node's store, it
touches only the local replica. Requires unique ids per table (the IndexedDB
keyPath invariant). -/
theorem purge_user_data_spec :
    ∀ (s : Store) (pk : String), Store.Wf s →
      (∀ p ∈ (deleteAllUserData s pk).posts, p.authorPublicKey ≠ pk) ∧
      (∀ c ∈ (deleteAllUserData s pk).comments, c.authorPublicKey ≠ pk) ∧
      (∀ v ∈ (deleteAllUserData s pk).votes, v.authorPublicKey ≠ pk) ∧
      (∀ n ∈ (deleteAllUserData s pk).notifications, n.recipientPublicKey ≠ pk) ∧
      (∀ p ∈ s.posts, p.authorPublicKey ≠ pk → p ∈ (deleteAllUserData s pk).posts) ∧
      (∀ c ∈ s.comments, c.authorPublicKey ≠ pk → c ∈ (deleteAllUserData s pk).comments) ∧
      (∀ v ∈ s.votes, v.authorPublicKey ≠ pk → v ∈ (deleteAllUserData s pk).votes) ∧
      (∀ n ∈ s.notifications, n.recipientPublicKey ≠ pk →
        n ∈ (deleteAllUserData s pk).notifications) ∧
      (∀ p ∈ (deleteAllUserData s pk).posts, p ∈ s.posts) ∧
      (∀ c ∈ (deleteAllUserData s pk).comments, c ∈ s.comments) ∧
      (∀ v ∈ (deleteAllUserData s pk).votes, v ∈ s.votes) ∧
      (∀ n ∈ (deleteAllUserData s pk).notifications, n ∈ s.notifications) := by
  intro s pk h
  have eP : (deleteAllUserData s pk).posts =
      (s.posts.filter (fun q => decide (q.authorPublicKey = pk))).foldl
        (fun acc q => delBy Post.id acc q.id) s.posts := rfl
  have eC : (deleteAllUserData s pk).comments =
      (s.comments.filter (fun q => decide (q.authorPublicKey = pk))).foldl
        (fun acc q => delBy Comment.id acc q.id) s.comments := rfl
  have eV : (deleteAllUserData s pk).votes =
      (s.votes.filter (fun q => decide (q.authorPublicKey = pk))).foldl
        (fun acc q => delBy Vote.id acc q.id) s.votes := rfl
  have eN : (deleteAllUserData s pk).notifications =
      (s.notifications.filter (fun q => decide (q.recipientPublicKey = pk))).foldl
        (fun acc q => delBy Notification.id acc q.id) s.notifications := rfl
  have hP := purge_table_spec Post.id Post.authorPublicKey s.posts pk h.1
  have hC := purge_table_spec Comment.id Comment.authorPublicKey s.comments pk h.2.1
  have hV := purge_table_spec Vote.id Vote.authorPublicKey s.votes pk h.2.2.1
  have hN := purge_table_spec Notification.id Notification.recipientPublicKey
    s.notifications pk h.2.2.2
  rw [eP, eC, eV, eN]
  exact ⟨hP.1, hC.1, hV.1, hN.1, hP.2.1, hC.2.1, hV.2.1, hN.2.1,
    hP.2.2, hC.2.2, hV.2.2, hN.2.2⟩

/-- Witness for C9: purging "alice" deletes her post and keeps the other
author's post. -/
theorem purge_user_data_spec_witness :
    alicePost ∉ (deleteAllUserData twoPostStore "alice").posts ∧
    bobPost ∈ (deleteAllUserData twoPostStore "alice").posts :=
  ⟨fun hmem => (purge_user_data_spec twoPostStore "alice" twoPostStore_wf).1
      alicePost hmem rfl,
   (purge_user_data_spec twoPostStore "alice" twoPostStore_wf).2.2.2.2.1
      bobPost (by decide) (by decide)⟩

/-- Claim C10. Encryption round trip: with the master key initialized,
`decryptData (encryptData s) = s`. The WebCrypto AES-GCM primitives and
TextEncoder/TextDecoder are parameters constrained to their documented
behavior on the values used (decrypt inverts encrypt under the same key and
IV; ciphertexts and IVs are byte sequences); the envelope plumbing itself —
base64 encoding/decoding of ciphertext, IV and wrapped key, the
`'.'`-joined wrapped-key field and its `split('.')` destructuring, and the
missing-key checks — is modelled concretely from the source and proved to
reconstruct the plaintext. -/
theorem encrypt_decrypt_round_trip :
    ∀ (aesEnc : List Nat → List Nat → List Nat → List Nat)
      (aesDec : List Nat → List Nat → List Nat → Option (List Nat))
      (textEncode : List Char → List Nat) (textDecode : List Nat → List Char)
      (mk dataKey iv keyIv : List Nat) (s : List Char),
      s.length ≤ 1000 →
      textDecode (textEncode s) = s →
      (∀ x ∈ iv, x < 256) →
      (∀ x ∈ keyIv, x < 256) →
      (∀ x ∈ aesEnc dataKey iv (textEncode s), x < 256) →
      (∀ x ∈ aesEnc mk keyIv dataKey, x < 256) →
      aesDec mk keyIv (aesEnc mk keyIv dataKey) = some dataKey →
      aesDec dataKey iv (aesEnc dataKey iv (textEncode s)) = some (textEncode s) →
      (encryptData aesEnc textEncode (some mk) s dataKey iv keyIv).bind
        (decryptData aesDec textDecode (some mk)) = some s := by
  intro aesEnc aesDec textEncode textDecode mk dataKey iv keyIv s
  intro _ hpt hiv hkiv hct1 hct2 hdec1 hdec2
  rw [encryptData]
  dsimp only [Option.bind]
  rw [decryptData]
  dsimp only
  rw [if_neg (by simp : ¬(encodeB64 (aesEnc mk keyIv dataKey) ++ '.' :: encodeB64 keyIv = ([] : List Char)))]
  rw [splitOnDot_append _ _ (not_dot_mem_encodeB64 _), splitOnDot_no_dot _ (not_dot_mem_encodeB64 _)]
  dsimp only
  rw [decodeB64_encodeB64 _ hkiv, decodeB64_encodeB64 _ hct2, hdec1]
  dsimp only
  rw [decodeB64_encodeB64 _ hct1, decodeB64_encodeB64 _ hiv, hdec2]
  dsimp only
  rw [hpt]

/-- Witness for C10 with a concrete identity cipher, a concrete 3-codepoint
encoder pair, and the plaintext "hi". -/
theorem encrypt_decrypt_round_trip_witness :
    (encryptData (fun _ _ pt => pt) (fun l => l.map Char.toNat) (some [9])
      ['h', 'i'] [1, 2] [3] [4]).bind
      (decryptData (fun _ _ ct => some ct) (fun l => l.map Char.ofNat) (some [9])) =
      some ['h', 'i'] :=
  encrypt_decrypt_round_trip (fun _ _ pt => pt) (fun _ _ ct => some ct)
    (fun l => l.map Char.toNat) (fun l => l.map Char.ofNat) [9] [1, 2] [3] [4] ['h', 'i']
    (by decide) (by decide) (by decide) (by decide) (by decide) (by decide) rfl rfl
